import Mathlib

/-!
Option parsing and bootstrap of `guix-daemon`.

A shallow embedding of `nix/nix-daemon/guix-daemon.cc`: the option table
`options`, the option callback `parse_opt`, and `main`.  The C library
routines the file calls (`atoi`, `argp_parse`) are modelled after their
documented behaviour in the GNU C library; the parts of the build engine that
the file only calls (`Settings::processEnvironment`, `run`) are parameters.
-/

set_option autoImplicit false

namespace GuixDaemon

/-! ## Data model -/

/-- Modelled from the spec: the `Verbosity` enumeration is declared in
`types.hh`, which is not among the sources.  The spec describes it as an
enum level whose default is "normal" and which `--debug` raises to "debug";
`lvlDebug` is the constant `parse_opt` assigns. -/
inductive Verbosity where
  | lvlError
  | lvlInfo
  | lvlTalkative
  | lvlChatty
  | lvlDebug
  | lvlVomit
  deriving DecidableEq, Repr

/-- Modelled from the spec: the `Settings` class is declared in `globals.hh`,
which is not among the sources.  The fields are the ones `guix-daemon.cc`
reads or writes, typed as in the spec's data model (section 3):
`dirsInChroot` is a set of path strings, `buildCores` and `maxBuildJobs` are
integers, `substituters` is a list of paths. -/
structure Settings where
  useChroot : Bool
  dirsInChroot : Finset String
  compressLog : Bool
  buildUsersGroup : String
  autoOptimiseStore : Bool
  cacheFailure : Bool
  impersonateLinux26 : Bool
  keepLog : Bool
  buildCores : Int
  maxBuildJobs : Int
  thisSystem : String
  useSubstitutes : Bool
  substituters : List String
  deriving DecidableEq

/-- The process-wide variables `parse_opt` and `main` mutate: the `settings`
object and the `verbosity` level. -/
structure Globals where
  settings : Settings
  verbosity : Verbosity
  deriving DecidableEq

/-! ## Option keys (lines 55-64) -/

def GUIX_OPT_SYSTEM : Int := 1
def GUIX_OPT_DISABLE_CHROOT : Int := 2
def GUIX_OPT_BUILD_USERS_GROUP : Int := 3
def GUIX_OPT_CACHE_FAILURES : Int := 4
def GUIX_OPT_LOSE_LOGS : Int := 5
def GUIX_OPT_DISABLE_LOG_COMPRESSION : Int := 6
def GUIX_OPT_DISABLE_STORE_OPTIMIZATION : Int := 7
def GUIX_OPT_IMPERSONATE_LINUX_26 : Int := 8
def GUIX_OPT_DEBUG : Int := 9
def GUIX_OPT_CHROOT_DIR : Int := 10

/-- The character constant `'C'`. -/
def KEY_C : Int := 67
/-- The character constant `'M'`. -/
def KEY_M : Int := 77

/-- `ARGP_ERR_UNKNOWN` of `<argp.h>`, defined there as `E2BIG` (7 on Linux). -/
def ARGP_ERR_UNKNOWN : Int := 7

/-! ## `atoi` -/

/-- `isspace` in the C locale: space, `\t`, `\n`, `\v`, `\f`, `\r`. -/
def isspace (c : Char) : Bool :=
  c.toNat = 32 || (9 ≤ c.toNat && c.toNat ≤ 13)

/-- `isdigit`. -/
def isdigit (c : Char) : Bool :=
  48 ≤ c.toNat && c.toNat ≤ 57

/-- Skip the leading white space of a string. -/
def skipSpace : List Char → List Char
  | [] => []
  | c :: cs => if isspace c then skipSpace cs else c :: cs

/-- Accumulate the longest run of leading decimal digits. -/
def readDigits (acc : Nat) : List Char → Nat
  | [] => acc
  | c :: cs => if isdigit c then readDigits (acc * 10 + (c.toNat - 48)) cs else acc

def LONG_MAX : Int := 2 ^ 63 - 1
def LONG_MIN : Int := -(2 ^ 63)

/-- `strtol (s, NULL, 10)`: optional white space, optional sign, the longest
run of digits; the value saturates at `LONG_MIN` / `LONG_MAX` (64-bit long).
With no digits the result is 0. -/
def strtol (s : List Char) : Int :=
  match skipSpace s with
  | [] => 0
  | c :: cs =>
    if c = Char.ofNat 45 then
      let v : Int := -(readDigits 0 cs : Int)
      if v < LONG_MIN then LONG_MIN else v
    else
      let v : Int := readDigits 0 (if c = Char.ofNat 43 then cs else c :: cs)
      if LONG_MAX < v then LONG_MAX else v

/-- Conversion of a `long` to the 32-bit `int` type. -/
def toInt32 (z : Int) : Int := (z + 2 ^ 31) % 2 ^ 32 - 2 ^ 31

/-- `atoi`, as the C library implements it: `(int) strtol (s, NULL, 10)`. -/
def atoi (s : String) : Int := toInt32 (strtol s.toList)

/-! ## `parse_opt` (lines 109-156) -/

/-- Parse a single option.  The result is the returned `error_t` and the
globals after the call.  `arg` is the option's argument; the null pointer
argp passes for an option without argument is represented by `""`, which the
cases of such options do not read. -/
def parse_opt (key : Int) (arg : String) (g : Globals) : Int × Globals :=
  if key = GUIX_OPT_DISABLE_CHROOT then
    (0, { g with settings := { g.settings with useChroot := false } })
  else if key = GUIX_OPT_CHROOT_DIR then
    (0, { g with settings := { g.settings with dirsInChroot := insert arg g.settings.dirsInChroot } })
  else if key = GUIX_OPT_DISABLE_LOG_COMPRESSION then
    (0, { g with settings := { g.settings with compressLog := false } })
  else if key = GUIX_OPT_BUILD_USERS_GROUP then
    (0, { g with settings := { g.settings with buildUsersGroup := arg } })
  else if key = GUIX_OPT_DISABLE_STORE_OPTIMIZATION then
    (0, { g with settings := { g.settings with autoOptimiseStore := false } })
  else if key = GUIX_OPT_CACHE_FAILURES then
    (0, { g with settings := { g.settings with cacheFailure := true } })
  else if key = GUIX_OPT_IMPERSONATE_LINUX_26 then
    (0, { g with settings := { g.settings with impersonateLinux26 := true } })
  else if key = GUIX_OPT_LOSE_LOGS then
    (0, { g with settings := { g.settings with keepLog := false } })
  else if key = GUIX_OPT_DEBUG then
    (0, { g with verbosity := Verbosity.lvlDebug })
  else if key = KEY_C then
    (0, { g with settings := { g.settings with buildCores := atoi arg } })
  else if key = KEY_M then
    (0, { g with settings := { g.settings with maxBuildJobs := atoi arg } })
  else if key = GUIX_OPT_SYSTEM then
    (0, { g with settings := { g.settings with thisSystem := arg } })
  else
    (ARGP_ERR_UNKNOWN, g)

/-! ## The option table (lines 66-107) -/

/-- One row of an argp option table: long name, key, and the name of the
argument (absent for an option that takes none).  The `flags` column is 0 in
every row of this program and the documentation string has no effect on
parsing; both are left out. -/
structure ArgpOption where
  name : String
  key : Int
  arg : Option String
  deriving DecidableEq

def options : List ArgpOption :=
  [ ⟨"system", GUIX_OPT_SYSTEM, some "SYSTEM"⟩,
    ⟨"build-cores", KEY_C, some "N"⟩,
    ⟨"max-jobs", KEY_M, some "N"⟩,
    ⟨"disable-chroot", GUIX_OPT_DISABLE_CHROOT, none⟩,
    ⟨"chroot-directory", GUIX_OPT_CHROOT_DIR, some "DIR"⟩,
    ⟨"build-users-group", GUIX_OPT_BUILD_USERS_GROUP, some "GROUP"⟩,
    ⟨"cache-failures", GUIX_OPT_CACHE_FAILURES, none⟩,
    ⟨"lose-logs", GUIX_OPT_LOSE_LOGS, none⟩,
    ⟨"disable-log-compression", GUIX_OPT_DISABLE_LOG_COMPRESSION, none⟩,
    ⟨"disable-store-optimization", GUIX_OPT_DISABLE_STORE_OPTIMIZATION, none⟩,
    ⟨"impersonate-linux-2.6", GUIX_OPT_IMPERSONATE_LINUX_26, none⟩,
    ⟨"debug", GUIX_OPT_DEBUG, none⟩ ]

/-! ## `argp_parse`

The C library's argp parser, as `main` calls it: flags 0, no child parsers,
`argp_program_version` set.  Besides the program's table argp adds its own
options `--help` (`-?`), `--usage`, `--version` (`-V`) and the hidden
`--program-name` and `--HANG`.  Options are decoded by `getopt_long`:
a long option may be abbreviated to an unambiguous prefix and may carry its
argument after `=`; a short option takes its argument from the rest of the
token or from the next one; `--` ends the options; the other tokens are
non-option arguments, which `getopt_long` moves behind the options (its
default, `POSIXLY_CORRECT` not being set).  On a usage error argp prints its
message and ends the process with `exit (argp_err_exit_status)`; no exception
is raised and `argp_parse` does not return. -/

/-- How an option takes an argument (`has_arg` of `getopt_long`). -/
inductive HasArg where
  | no
  | required
  | optional
  deriving DecidableEq, Repr

/-- Who handles a decoded option: the program's parser `parse_opt`, called
with a key, or one of argp's own options. -/
inductive Handler where
  | user (key : Int)
  | help
  | usage
  | progName
  | hang
  | version
  deriving DecidableEq, Repr

/-- A long option as argp registers it with `getopt_long`. -/
structure LongOption where
  name : String
  hasArg : HasArg
  handler : Handler
  deriving DecidableEq

/-- A short option as argp registers it with `getopt_long`. -/
structure ShortOption where
  char : Char
  hasArg : HasArg
  handler : Handler
  deriving DecidableEq

/-- An option of the program's table takes a required argument when its `arg`
column is set (the table has no `OPTION_ARG_OPTIONAL` flag), none otherwise. -/
def ArgpOption.hasArg (o : ArgpOption) : HasArg :=
  match o.arg with
  | some _ => HasArg.required
  | none => HasArg.no

/-- The long options `getopt_long` knows: every named row of the program's
table, then argp's default options, then its version option. -/
def longOptions : List LongOption :=
  options.map (fun o => ⟨o.name, o.hasArg, Handler.user o.key⟩) ++
  [ ⟨"help", HasArg.no, Handler.help⟩,
    ⟨"usage", HasArg.no, Handler.usage⟩,
    ⟨"program-name", HasArg.required, Handler.progName⟩,
    ⟨"HANG", HasArg.optional, Handler.hang⟩,
    ⟨"version", HasArg.no, Handler.version⟩ ]

/-- A key is also a short option when it is a printable character
(`isprint`, 32 to 126). -/
def isShortKey (key : Int) : Bool := 32 ≤ key && key ≤ 126

/-- The short options: the rows of the program's table with a printable key
(`-C`, `-M`), then argp's `-?` and `-V`. -/
def shortOptions : List ShortOption :=
  (options.filter (fun o => isShortKey o.key)).map
    (fun o => ⟨Char.ofNat o.key.toNat, o.hasArg, Handler.user o.key⟩) ++
  [ ⟨Char.ofNat 63, HasArg.no, Handler.help⟩,
    ⟨Char.ofNat 86, HasArg.no, Handler.version⟩ ]

/-- What decoding yields: an option with its handler and argument, or a
decoding error (unknown or ambiguous option, missing or superfluous
argument). -/
inductive Item where
  | opt (h : Handler) (arg : Option String)
  | bad
  deriving DecidableEq

/-- The items decoded from one token, and the option, if any, that waits for
the next token as its argument. -/
structure Decoded where
  items : List Item
  pending : Option Handler

/-- Split the text after `--` at the first `=`: the name, and the value when
there is an `=`. -/
def splitEq : List Char → List Char × Option (List Char)
  | [] => ([], none)
  | c :: cs =>
    if c = Char.ofNat 61 then ([], some cs)
    else ((c :: (splitEq cs).1), (splitEq cs).2)

/-- Look a long option name up: an exact match, else the only option the name
is a prefix of. -/
def lookupLong (n : List Char) : Option LongOption :=
  match longOptions.find? (fun o => decide (o.name.toList = n)) with
  | some o => some o
  | none =>
    match longOptions.filter (fun o => n.isPrefixOf o.name.toList) with
    | [o] => some o
    | _ => none

/-- Decode a long option; `body` is the token without its leading `--`. -/
def decodeLong (body : List Char) : Decoded :=
  match lookupLong (splitEq body).1 with
  | none => ⟨[Item.bad], none⟩
  | some o =>
    match o.hasArg, (splitEq body).2 with
    | HasArg.no, none => ⟨[Item.opt o.handler none], none⟩
    | HasArg.no, some _ => ⟨[Item.bad], none⟩
    | HasArg.required, some v => ⟨[Item.opt o.handler (some (String.mk v))], none⟩
    | HasArg.required, none => ⟨[], some o.handler⟩
    | HasArg.optional, v => ⟨[Item.opt o.handler (v.map String.mk)], none⟩

/-- Look a short option character up. -/
def lookupShort (c : Char) : Option ShortOption :=
  shortOptions.find? (fun o => decide (o.char = c))

/-- Decode a cluster of short options; `cs` is the token without its leading
`-`. -/
def decodeShort : List Char → Decoded
  | [] => ⟨[], none⟩
  | c :: cs =>
    match lookupShort c with
    | none => ⟨[Item.bad], none⟩
    | some o =>
      match o.hasArg with
      | HasArg.no => ⟨Item.opt o.handler none :: (decodeShort cs).items, (decodeShort cs).pending⟩
      | HasArg.required =>
        if cs = [] then ⟨[], some o.handler⟩
        else ⟨[Item.opt o.handler (some (String.mk cs))], none⟩
      | HasArg.optional =>
        ⟨[Item.opt o.handler (if cs = [] then none else some (String.mk cs))], none⟩

/-- The kinds of token `getopt_long` distinguishes. -/
inductive Token where
  | endOfOptions
  | long (body : List Char)
  | short (cluster : List Char)
  | nonOption
  deriving DecidableEq

/-- Classify a token: `--` ends the options, `--x...` is a long option,
`-x...` a cluster of short options, anything else (`-` and the empty string
included) a non-option argument. -/
def classify (tok : List Char) : Token :=
  match tok with
  | c1 :: c2 :: body =>
    if c1 = Char.ofNat 45 then
      if c2 = Char.ofNat 45 then
        if body = [] then Token.endOfOptions else Token.long body
      else Token.short (c2 :: body)
    else Token.nonOption
  | _ => Token.nonOption

/-- Decode an argument vector (without the program name): the option items in
the order of the vector, and the non-option arguments.  The first parameter
is the option waiting for its argument. -/
def scan : Option Handler → List String → List Item × List String
  | none, [] => ([], [])
  | some _, [] => ([Item.bad], [])
  | some h, a :: rest => (Item.opt h (some a) :: (scan none rest).1, (scan none rest).2)
  | none, tok :: rest =>
    match classify tok.toList with
    | Token.endOfOptions => ([], rest)
    | Token.long body =>
      ((decodeLong body).items ++ (scan (decodeLong body).pending rest).1,
        (scan (decodeLong body).pending rest).2)
    | Token.short cluster =>
      ((decodeShort cluster).items ++ (scan (decodeShort cluster).pending rest).1,
        (scan (decodeShort cluster).pending rest).2)
    | Token.nonOption => ((scan none rest).1, tok :: (scan none rest).2)

/-- The special keys argp passes to a parser (`<argp.h>`). -/
def ARGP_KEY_ARG : Int := 0
def ARGP_KEY_ARGS : Int := 0x1000006
def ARGP_KEY_END : Int := 0x1000001
def ARGP_KEY_NO_ARGS : Int := 0x1000002
def ARGP_KEY_INIT : Int := 0x1000003
def ARGP_KEY_SUCCESS : Int := 0x1000004
def ARGP_KEY_FINI : Int := 0x1000007

/-- `EX_USAGE` of `<sysexits.h>`, the default `argp_err_exit_status`. -/
def EX_USAGE : Int := 64

/-- The result of `argp_parse`: the globals when it stops, and the status the
process exited with when argp ended it (`none`: `argp_parse` returned). -/
structure ParseResult where
  state : Globals
  exit : Option Int
  deriving DecidableEq

/-- The end of a successful parse: the parser is called with
`ARGP_KEY_NO_ARGS` (when there was no non-option argument), `ARGP_KEY_END`,
`ARGP_KEY_SUCCESS` and `ARGP_KEY_FINI`; argp ignores the results of these
calls when they are `ARGP_ERR_UNKNOWN`. -/
def finalize (noArgs : Bool) (g : Globals) : ParseResult :=
  let g1 := if noArgs then (parse_opt ARGP_KEY_NO_ARGS "" g).2 else g
  let g2 := (parse_opt ARGP_KEY_END "" g1).2
  let g3 := (parse_opt ARGP_KEY_SUCCESS "" g2).2
  ⟨(parse_opt ARGP_KEY_FINI "" g3).2, none⟩

/-- The non-option arguments are offered to the parser one by one
(`ARGP_KEY_ARG`); when it does not take one, all that remain are offered at
once (`ARGP_KEY_ARGS`); when it does not take them either the parse ends with
the error "Too many arguments" and the usage-error exit status. -/
def finish (noArgs : Bool) (g : Globals) : List String → ParseResult
  | [] => finalize noArgs g
  | a :: rest =>
    if (parse_opt ARGP_KEY_ARG a g).1 = 0 then
      finish false (parse_opt ARGP_KEY_ARG a g).2 rest
    else if (parse_opt ARGP_KEY_ARGS "" (parse_opt ARGP_KEY_ARG a g).2).1 = 0 then
      finalize false (parse_opt ARGP_KEY_ARGS "" (parse_opt ARGP_KEY_ARG a g).2).2
    else
      ⟨(parse_opt ARGP_KEY_ARGS "" (parse_opt ARGP_KEY_ARG a g).2).2, some EX_USAGE⟩

/-- Handle the decoded options in order, then the non-option arguments.  An
option of the program's table calls `parse_opt`; when the result is not 0
(`parse_opt` returns only 0 or `ARGP_ERR_UNKNOWN`) the process ends with the
usage-error status, as it does on a decoding error.  `--help`, `--usage` and
`--version` print and exit with status 0; `--program-name` and `--HANG` do
not touch the globals. -/
def handle (g : Globals) (args : List String) : List Item → ParseResult
  | [] => finish true g args
  | Item.bad :: _ => ⟨g, some EX_USAGE⟩
  | Item.opt (Handler.user key) arg :: rest =>
    if (parse_opt key (arg.getD "") g).1 = 0 then
      handle (parse_opt key (arg.getD "") g).2 args rest
    else ⟨(parse_opt key (arg.getD "") g).2, some EX_USAGE⟩
  | Item.opt Handler.help _ :: _ => ⟨g, some 0⟩
  | Item.opt Handler.usage _ :: _ => ⟨g, some 0⟩
  | Item.opt Handler.version _ :: _ => ⟨g, some 0⟩
  | Item.opt Handler.progName _ :: rest => handle g args rest
  | Item.opt Handler.hang _ :: rest => handle g args rest

/-- `argp_parse (&argp, argc, argv, 0, 0, 0)`; `args` is `argv` without the
program name.  The parser is first called with `ARGP_KEY_INIT`, whose result
is ignored. -/
def argp_parse (g : Globals) (args : List String) : ParseResult :=
  handle (parse_opt ARGP_KEY_INIT "" g).2 (scan none args).2 (scan none args).1

/-! ## `main` (lines 163-199) -/

/-- How a call of the build service's entry point `run` ends: it returns, it
throws an exception (a `std::exception`, the kind `main` catches, with its
`what ()` message), or it keeps serving and never returns. -/
inductive RunResult where
  | returns
  | throws (what : String)
  | forever
  deriving DecidableEq

/-- What `main` uses and the sources do not define: whether `HAVE_CHROOT` is
defined in `config.h`, the effective user id, `Settings::processEnvironment`
(which returns the settings it leaves, or throws an exception with a
message), and `run`, called with its argument list under the globals `main`
has set up. -/
structure Env where
  HAVE_CHROOT : Bool
  geteuid : Nat
  processEnvironment : Settings → Except String Settings
  run : List String → Globals → RunResult

/-- How the process ends: `main` returns a status, the C library ends the
process with a status (`exit` inside `argp_parse`), or the service keeps
running. -/
inductive Outcome where
  | returned (status : Int)
  | exited (status : Int)
  | serving
  deriving DecidableEq

def EXIT_SUCCESS : Int := 0
def EXIT_FAILURE : Int := 1

/-- The line `main` prints when running as root without a build users group. -/
def warningLine : String :=
  "warning: running as root is highly recommended, unless `--build-users-group' is used"

/-- The line the exception handler of `main` prints. -/
def errorLine (what : String) : String := "error: " ++ what

/-- An execution of `main`: the lines `main` itself writes to `stderr`, the
calls of `run` (argument list and the globals at the call), and the outcome. -/
structure Execution where
  stderr : List String
  launches : List (List String × Globals)
  outcome : Outcome
  deriving DecidableEq

/-- The program's `main`.  `init` holds the globals as their constructors
leave them; `args` is `argv` without the program name. -/
def main (env : Env) (init : Globals) (args : List String) : Execution :=
  let nothing : List String := []
  let g0 : Globals := { init with settings := { init.settings with useChroot := env.HAVE_CHROOT } }
  match env.processEnvironment g0.settings with
  | Except.error what => ⟨[errorLine what], [], Outcome.returned EXIT_FAILURE⟩
  | Except.ok s1 =>
    let g1 : Globals := { g0 with settings := { s1 with useSubstitutes := false, substituters := [] } }
    match (argp_parse g1 args).exit with
    | some status => ⟨[], [], Outcome.exited status⟩
    | none =>
      let g2 := (argp_parse g1 args).state
      let warn : List String :=
        if env.geteuid = 0 ∧ g2.settings.buildUsersGroup = "" then [warningLine] else []
      match env.run nothing g2 with
      | RunResult.returns => ⟨warn, [(nothing, g2)], Outcome.returned EXIT_SUCCESS⟩
      | RunResult.throws what =>
        ⟨warn ++ [errorLine what], [(nothing, g2)], Outcome.returned EXIT_FAILURE⟩
      | RunResult.forever => ⟨warn, [(nothing, g2)], Outcome.serving⟩

/-! ## Command lines made of the documented flags -/

/-- The two spellings of `-C` / `--build-cores` and `-M` / `--max-jobs`. -/
inductive Spelling where
  | short
  | long
  deriving DecidableEq, Repr

/-- The twelve options of the table (spec section 6). -/
inductive Kind where
  | system
  | buildCores
  | maxJobs
  | disableChroot
  | chrootDirectory
  | buildUsersGroup
  | cacheFailures
  | loseLogs
  | disableLogCompression
  | disableStoreOptimization
  | impersonateLinux26
  | debug
  deriving DecidableEq, Repr

/-- A use of one of the options on a command line, with its argument. -/
inductive Flag where
  | system (s : String)
  | buildCores (sp : Spelling) (n : String)
  | maxJobs (sp : Spelling) (n : String)
  | disableChroot
  | chrootDirectory (dir : String)
  | buildUsersGroup (group : String)
  | cacheFailures
  | loseLogs
  | disableLogCompression
  | disableStoreOptimization
  | impersonateLinux26
  | debug
  deriving DecidableEq

def Flag.kind : Flag → Kind
  | Flag.system _ => Kind.system
  | Flag.buildCores _ _ => Kind.buildCores
  | Flag.maxJobs _ _ => Kind.maxJobs
  | Flag.disableChroot => Kind.disableChroot
  | Flag.chrootDirectory _ => Kind.chrootDirectory
  | Flag.buildUsersGroup _ => Kind.buildUsersGroup
  | Flag.cacheFailures => Kind.cacheFailures
  | Flag.loseLogs => Kind.loseLogs
  | Flag.disableLogCompression => Kind.disableLogCompression
  | Flag.disableStoreOptimization => Kind.disableStoreOptimization
  | Flag.impersonateLinux26 => Kind.impersonateLinux26
  | Flag.debug => Kind.debug

/-- The key of the option in the table `options`. -/
def Kind.key : Kind → Int
  | Kind.system => GUIX_OPT_SYSTEM
  | Kind.buildCores => KEY_C
  | Kind.maxJobs => KEY_M
  | Kind.disableChroot => GUIX_OPT_DISABLE_CHROOT
  | Kind.chrootDirectory => GUIX_OPT_CHROOT_DIR
  | Kind.buildUsersGroup => GUIX_OPT_BUILD_USERS_GROUP
  | Kind.cacheFailures => GUIX_OPT_CACHE_FAILURES
  | Kind.loseLogs => GUIX_OPT_LOSE_LOGS
  | Kind.disableLogCompression => GUIX_OPT_DISABLE_LOG_COMPRESSION
  | Kind.disableStoreOptimization => GUIX_OPT_DISABLE_STORE_OPTIMIZATION
  | Kind.impersonateLinux26 => GUIX_OPT_IMPERSONATE_LINUX_26
  | Kind.debug => GUIX_OPT_DEBUG

/-- The argument given with a flag (`none` for a flag without argument). -/
def Flag.arg : Flag → Option String
  | Flag.system s => some s
  | Flag.buildCores _ n => some n
  | Flag.maxJobs _ n => some n
  | Flag.chrootDirectory dir => some dir
  | Flag.buildUsersGroup group => some group
  | _ => none

/-- The tokens of a flag on the command line, the argument as a token of its
own. -/
def Flag.tokens : Flag → List String
  | Flag.system s => ["--system", s]
  | Flag.buildCores Spelling.short n => ["-C", n]
  | Flag.buildCores Spelling.long n => ["--build-cores", n]
  | Flag.maxJobs Spelling.short n => ["-M", n]
  | Flag.maxJobs Spelling.long n => ["--max-jobs", n]
  | Flag.disableChroot => ["--disable-chroot"]
  | Flag.chrootDirectory dir => ["--chroot-directory", dir]
  | Flag.buildUsersGroup group => ["--build-users-group", group]
  | Flag.cacheFailures => ["--cache-failures"]
  | Flag.loseLogs => ["--lose-logs"]
  | Flag.disableLogCompression => ["--disable-log-compression"]
  | Flag.disableStoreOptimization => ["--disable-store-optimization"]
  | Flag.impersonateLinux26 => ["--impersonate-linux-2.6"]
  | Flag.debug => ["--debug"]

/-- The argument vector that spells a list of flags. -/
def render : List Flag → List String
  | [] => []
  | f :: fs => f.tokens ++ render fs

/-- The call of `parse_opt` a flag leads to. -/
def Flag.apply (f : Flag) (g : Globals) : Globals :=
  (parse_opt f.kind.key (f.arg.getD "") g).2

/-- The item a flag decodes to. -/
def Flag.item (f : Flag) : Item := Item.opt (Handler.user f.kind.key) f.arg

/-- The effect the option table of the spec (section 6) documents for a
flag, as a relation between the globals `s` before parsing and the globals `r`
after it: the targeted field has the documented value.  The number a count
option stores is the one `atoi` reads from its argument. -/
def Flag.documented (f : Flag) (s r : Globals) : Prop :=
  match f with
  | Flag.system v => r.settings.thisSystem = v
  | Flag.buildCores _ n => r.settings.buildCores = atoi n
  | Flag.maxJobs _ n => r.settings.maxBuildJobs = atoi n
  | Flag.disableChroot => r.settings.useChroot = false
  | Flag.chrootDirectory dir => r.settings.dirsInChroot = insert dir s.settings.dirsInChroot
  | Flag.buildUsersGroup group => r.settings.buildUsersGroup = group
  | Flag.cacheFailures => r.settings.cacheFailure = true
  | Flag.loseLogs => r.settings.keepLog = false
  | Flag.disableLogCompression => r.settings.compressLog = false
  | Flag.disableStoreOptimization => r.settings.autoOptimiseStore = false
  | Flag.impersonateLinux26 => r.settings.impersonateLinux26 = true
  | Flag.debug => r.verbosity = Verbosity.lvlDebug

/-- The field an option targets (spec section 6) has in `r` the value it has
in `s`. -/
def Kind.preserved (k : Kind) (s r : Globals) : Prop :=
  match k with
  | Kind.system => r.settings.thisSystem = s.settings.thisSystem
  | Kind.buildCores => r.settings.buildCores = s.settings.buildCores
  | Kind.maxJobs => r.settings.maxBuildJobs = s.settings.maxBuildJobs
  | Kind.disableChroot => r.settings.useChroot = s.settings.useChroot
  | Kind.chrootDirectory => r.settings.dirsInChroot = s.settings.dirsInChroot
  | Kind.buildUsersGroup => r.settings.buildUsersGroup = s.settings.buildUsersGroup
  | Kind.cacheFailures => r.settings.cacheFailure = s.settings.cacheFailure
  | Kind.loseLogs => r.settings.keepLog = s.settings.keepLog
  | Kind.disableLogCompression => r.settings.compressLog = s.settings.compressLog
  | Kind.disableStoreOptimization => r.settings.autoOptimiseStore = s.settings.autoOptimiseStore
  | Kind.impersonateLinux26 => r.settings.impersonateLinux26 = s.settings.impersonateLinux26
  | Kind.debug => r.verbosity = s.verbosity

/-- Modelled from the spec: the globals at program start.  The constructor
of `Settings` is in `globals.cc`, which is not among the sources; the values
are the defaults of the spec's data model (section 3) on a platform with
build isolation, with the unset counts taken as 0 and `x86_64-linux` as the
platform's system.  Used as a concrete input. -/
def specDefaults : Globals :=
  { settings :=
      { useChroot := true, dirsInChroot := ∅, compressLog := true, buildUsersGroup := "",
        autoOptimiseStore := true, cacheFailure := false, impersonateLinux26 := false,
        keepLog := true, buildCores := 0, maxBuildJobs := 0, thisSystem := "x86_64-linux",
        useSubstitutes := false, substituters := [] },
    verbosity := Verbosity.lvlInfo }

/-- A token that is an option `getopt_long` does not know: a long option
whose name matches no option of the table (nor, uniquely, as a prefix), or a
short option whose first character is no option of the table. -/
def unknownOption (tok : String) : Bool :=
  match classify tok.toList with
  | Token.long body => (lookupLong (splitEq body).1).isNone
  | Token.short (c :: _) => (lookupShort c).isNone
  | _ => false

/-- An environment used as a concrete input: build isolation is supported,
the process runs as root, `processEnvironment` leaves the settings as they
are, and the service keeps running. -/
def rootEnv : Env :=
  { HAVE_CHROOT := true, geteuid := 0, processEnvironment := Except.ok,
    run := fun _ _ => RunResult.forever }

/-- The effect of a decoded item on the globals: an option of the program's
table runs `parse_opt`; the other items leave the globals alone. -/
def Item.effect (i : Item) (g : Globals) : Globals :=
  match i with
  | Item.opt (Handler.user key) arg => (parse_opt key (arg.getD "") g).2
  | _ => g

/-- The argument an item passes to `parse_opt` under key `k`, when the item is
an option of the program's table with that key. -/
def Item.argOf (k : Int) (i : Item) : Option String :=
  match i with
  | Item.opt (Handler.user key) arg => if key = k then some (arg.getD "") else none
  | _ => none

/-- The arguments given to the option with key `k` in an argument vector, in
the order of the vector. -/
def argsOf (k : Int) (args : List String) : List String :=
  (scan none args).1.filterMap (Item.argOf k)

/-- The directories given to `--chroot-directory` in an argument vector. -/
def chrootDirs (args : List String) : List String := argsOf GUIX_OPT_CHROOT_DIR args

/-- The argument of the last occurrence, if any, of the option with key `k`
in an argument vector. -/
def lastArg (k : Int) (args : List String) : Option String := (argsOf k args).getLast?

/-- The option with key `k` occurs in an argument vector. -/
def occurs (k : Int) (args : List String) : Bool := !(argsOf k args).isEmpty

/-- The directory of a `--chroot-directory` flag. -/
def Flag.dir : Flag → Option String
  | Flag.chrootDirectory dir => some dir
  | _ => none

/-- The options whose field holds a single value (spec section 4.2: "last
occurrence wins for scalar options"): `--system`, `--build-users-group`,
`-C` / `--build-cores` and `-M` / `--max-jobs`. -/
def Kind.scalar : Kind → Bool
  | Kind.system => true
  | Kind.buildUsersGroup => true
  | Kind.buildCores => true
  | Kind.maxJobs => true
  | _ => false

/-! ## Decimal numerals -/

/-- The character of a decimal digit. -/
def digitChar (d : Nat) : Char := Char.ofNat (48 + d)

/-- The decimal digits of a natural number, most significant first; `0` has
the single digit 0. -/
def natDigits (n : Nat) : List Nat :=
  if n = 0 then [0] else (Nat.digits 10 n).reverse

/-- The decimal numeral of an integer: its digits, after a `-` when it is
negative. -/
def numeral (n : Int) : String :=
  if 0 ≤ n then String.mk ((natDigits n.toNat).map digitChar)
  else String.mk (Char.ofNat 45 :: (natDigits (-n).toNat).map digitChar)

/-- A well-formed decimal integer: an optional sign, then one digit or more,
and nothing else. -/
def wellFormedDecimal (s : String) : Bool :=
  match s.toList with
  | [] => false
  | c :: cs =>
    if c = Char.ofNat 45 ∨ c = Char.ofNat 43 then !cs.isEmpty && cs.all isdigit
    else (c :: cs).all isdigit

/-- The string has a decimal digit where `atoi` starts to read the number:
after the leading white space and an optional sign. -/
def startsWithNumber (s : String) : Bool :=
  match skipSpace s.toList with
  | [] => false
  | c :: cs =>
    if c = Char.ofNat 45 ∨ c = Char.ofNat 43 then
      match cs with
      | [] => false
      | d :: _ => isdigit d
    else isdigit c

/-- The globals `main` hands to `argp_parse`, given the initial globals and
the settings `processEnvironment` returned: substitutes are off, the list of
substituters is empty. -/
def beforeParsing (init : Globals) (s1 : Settings) : Globals :=
  { init with settings := { s1 with useSubstitutes := false, substituters := [] } }

/-- The lines `main` has written when it calls `run`: the warning, when the
process runs as root and the build users group is empty. -/
def warning (env : Env) (g : Globals) : List String :=
  if env.geteuid = 0 ∧ g.settings.buildUsersGroup = "" then [warningLine] else []

/-- The globals after a sequence of calls of `parse_opt`, each given by its
key and its argument. -/
def applyOptions (g : Globals) (os : List (Int × String)) : Globals :=
  os.foldl (fun g o => (parse_opt o.1 o.2 g).2) g

/-- The fields the six boolean switches target are, in `r`, at least as far
in the direction of their switch as in `g`: a field cleared (`useChroot`,
`keepLog`, `compressLog`, `autoOptimiseStore`) or set (`cacheFailure`,
`impersonateLinux26`) in `g` is so in `r`. -/
def switchesKept (g r : Globals) : Prop :=
  (g.settings.useChroot = false → r.settings.useChroot = false)
  ∧ (g.settings.keepLog = false → r.settings.keepLog = false)
  ∧ (g.settings.compressLog = false → r.settings.compressLog = false)
  ∧ (g.settings.autoOptimiseStore = false → r.settings.autoOptimiseStore = false)
  ∧ (g.settings.cacheFailure = true → r.settings.cacheFailure = true)
  ∧ (g.settings.impersonateLinux26 = true → r.settings.impersonateLinux26 = true)

/-! ## What `atoi` reads, in the words of the amended claim -/

/-- The optional sign in front of a number. -/
inductive Sign where
  | absent
  | plus
  | minus
  deriving DecidableEq, Repr

/-- The characters of a sign: none, `+` or `-`. -/
def Sign.chars : Sign → List Char
  | Sign.absent => []
  | Sign.plus => [Char.ofNat 43]
  | Sign.minus => [Char.ofNat 45]

/-- The signed value: negated under `-`. -/
def Sign.apply : Sign → Nat → Int
  | Sign.minus, v => -(v : Int)
  | _, v => (v : Int)

/-- The value of a run of decimal digits, read as a decimal numeral (leading
zeros allowed); 0 for the empty run. -/
def decimalValue (digits : List Char) : Nat :=
  digits.foldl (fun a c => a * 10 + (c.toNat - 48)) 0

/-- Saturation of an integer at the bounds of the 64-bit `long` type. -/
def toLong (z : Int) : Int :=
  if z < LONG_MIN then LONG_MIN else if LONG_MAX < z then LONG_MAX else z

/-- A string read as a number: `ws` is its leading white space, `sg` the sign
that follows, `digits` the run of decimal digits after it, `junk` the rest.
The parts are the longest ones: `junk` does not start with a digit and, when
there is neither sign nor digit, it does not start with white space or a
sign. -/
def NumberParts (ws : List Char) (sg : Sign) (digits junk : List Char) : Prop :=
  (∀ c ∈ ws, isspace c = true)
  ∧ (∀ c ∈ digits, isdigit c = true)
  ∧ (∀ c ∈ junk.head?, isdigit c = false)
  ∧ (sg = Sign.absent → digits = [] →
      ∀ c ∈ junk.head?, isspace c = false ∧ c ≠ Char.ofNat 43 ∧ c ≠ Char.ofNat 45)

/-- A line of the form `error: ...`. -/
def isErrorLine (l : String) : Bool := "error: ".toList.isPrefixOf l.toList

/-! ## Lemmas on `parse_opt` and `argp_parse` -/

theorem parse_opt_init (g : Globals) : parse_opt ARGP_KEY_INIT "" g = (ARGP_ERR_UNKNOWN, g) := rfl

theorem finalize_eq (b : Bool) (g : Globals) : finalize b g = ⟨g, none⟩ := by
  cases b <;> rfl

theorem parse_opt_arg (a : String) (g : Globals) :
    parse_opt ARGP_KEY_ARG a g = (ARGP_ERR_UNKNOWN, g) := rfl

theorem parse_opt_args (g : Globals) : parse_opt ARGP_KEY_ARGS "" g = (ARGP_ERR_UNKNOWN, g) := rfl

/-- With no non-option argument the parse ends well; with one it ends with
the usage error; the globals stay as they are. -/
theorem finish_eq (b : Bool) (g : Globals) (args : List String) :
    finish b g args = ⟨g, if args = [] then none else some EX_USAGE⟩ := by
  cases args with
  | nil => simp [finish, finalize_eq]
  | cons a rest =>
    simp [finish, parse_opt_arg, parse_opt_args, ARGP_ERR_UNKNOWN]

theorem argp_parse_eq (g : Globals) (args : List String) :
    argp_parse g args = handle g (scan none args).2 (scan none args).1 := by
  simp [argp_parse, parse_opt_init]

/-- A flag is accepted by `parse_opt`. -/
theorem Flag.parse_opt_fst (f : Flag) (g : Globals) :
    (parse_opt f.kind.key (f.arg.getD "") g).1 = 0 := by
  cases f <;> rfl

/-- Decoding the tokens of a flag yields its item and goes on with the rest. -/
theorem scan_tokens (f : Flag) (rest : List String) :
    scan none (f.tokens ++ rest) = (f.item :: (scan none rest).1, (scan none rest).2) := by
  cases f with
  | buildCores sp n => cases sp <;> rfl
  | maxJobs sp n => cases sp <;> rfl
  | _ => rfl

theorem scan_render (fs : List Flag) : scan none (render fs) = (fs.map Flag.item, []) := by
  induction fs with
  | nil => rfl
  | cons f fs ih => simp [render, scan_tokens, ih]

/-- Handling the items of a list of flags applies the flags in order, then
goes on with what follows. -/
theorem handle_flags (fs : List Flag) (g : Globals) (args : List String) (more : List Item) :
    handle g args (fs.map Flag.item ++ more)
      = handle (fs.foldl (fun g f => f.apply g) g) args more := by
  induction fs generalizing g with
  | nil => rfl
  | cons f fs ih =>
    simp only [List.map_cons, List.cons_append, List.foldl_cons]
    rw [← ih]
    simp [Flag.item, handle, Flag.parse_opt_fst, Flag.apply]

/-- A command line made of flags parses well, to the flags applied in
order. -/
theorem argp_parse_render (g : Globals) (fs : List Flag) :
    argp_parse g (render fs) = ⟨fs.foldl (fun g f => f.apply g) g, none⟩ := by
  have h := handle_flags fs g [] []
  simp only [List.append_nil] at h
  rw [argp_parse_eq, scan_render, h]
  simp [handle, finish_eq]

/-! ## Frame lemmas -/

theorem Kind.preserved_refl (k : Kind) (s : Globals) : k.preserved s s := by
  cases k <;> rfl

theorem Kind.preserved_trans (k : Kind) (s r t : Globals)
    (h1 : k.preserved s r) (h2 : k.preserved r t) : k.preserved s t := by
  cases k <;> exact Eq.trans h2 h1

/-- A flag leaves the fields targeted by the other options alone. -/
theorem Flag.apply_preserved (f : Flag) (k : Kind) (h : f.kind ≠ k) (g : Globals) :
    k.preserved g (f.apply g) := by
  cases f <;> cases k <;> first | rfl | exact absurd rfl h

theorem foldl_apply_preserved (k : Kind) (fs : List Flag) (h : ∀ f ∈ fs, f.kind ≠ k)
    (g : Globals) : k.preserved g (fs.foldl (fun g f => f.apply g) g) := by
  induction fs generalizing g with
  | nil => exact Kind.preserved_refl k g
  | cons f fs ih =>
    simp only [List.foldl_cons]
    exact Kind.preserved_trans k _ _ _
      (Flag.apply_preserved f k (h f (List.mem_cons_self f fs)) g)
      (ih (fun f' hf' => h f' (List.mem_cons_of_mem f hf')) _)

/-- Applied to globals whose targeted field is as in `s`, a flag has its
documented effect relative to `s`. -/
theorem Flag.documented_apply (f : Flag) (s g : Globals) (h : f.kind.preserved s g) :
    f.documented s (f.apply g) := by
  cases f <;> first | rfl | (simp only [Flag.kind, Kind.preserved] at h; simp [Flag.documented, Flag.apply, Flag.arg, Flag.kind, Kind.key, parse_opt, GUIX_OPT_CHROOT_DIR, GUIX_OPT_DISABLE_CHROOT, h])

theorem Flag.documented_of_preserved (f : Flag) (s r t : Globals)
    (h1 : f.documented s r) (h2 : f.kind.preserved r t) : f.documented s t := by
  cases f <;> exact Eq.trans h2 h1

theorem foldl_apply_useSubstitutes (fs : List Flag) (g : Globals) :
    (fs.foldl (fun g f => f.apply g) g).settings.useSubstitutes = g.settings.useSubstitutes
    ∧ (fs.foldl (fun g f => f.apply g) g).settings.substituters = g.settings.substituters := by
  induction fs generalizing g with
  | nil => exact ⟨rfl, rfl⟩
  | cons f fs ih =>
    simp only [List.foldl_cons]
    have h : (f.apply g).settings.useSubstitutes = g.settings.useSubstitutes
        ∧ (f.apply g).settings.substituters = g.settings.substituters := by
      cases f <;> exact ⟨rfl, rfl⟩
    exact ⟨(ih _).1.trans h.1, (ih _).2.trans h.2⟩

/-- In a list of flags without a repeated option, a flag that occurs has its
documented effect on the result of applying the list. -/
theorem foldl_apply_documented (fs : List Flag) (h : (fs.map Flag.kind).Nodup)
    (s : Globals) (f : Flag) (hf : f ∈ fs) :
    f.documented s (fs.foldl (fun g f => f.apply g) s) := by
  obtain ⟨pre, post, rfl⟩ := List.append_of_mem hf
  rw [List.map_append, List.map_cons, List.nodup_append] at h
  obtain ⟨_, hpost, hdisj⟩ := h
  rw [List.nodup_cons] at hpost
  have hpre : ∀ f' ∈ pre, f'.kind ≠ f.kind := by
    intro f' hf' heq
    exact hdisj (List.mem_map_of_mem Flag.kind hf') (heq ▸ List.mem_cons_self _ _)
  have hpost' : ∀ f' ∈ post, f'.kind ≠ f.kind := by
    intro f' hf' heq
    exact hpost.1 (heq ▸ List.mem_map_of_mem Flag.kind hf')
  rw [List.foldl_append, List.foldl_cons]
  exact Flag.documented_of_preserved f s _ _
    (Flag.documented_apply f s _ (foldl_apply_preserved f.kind pre hpre s))
    (foldl_apply_preserved f.kind post hpost' _)

/-! ## Lemmas on vectors with an unknown option -/

theorem scan_render_append (fs : List Flag) (more : List String) :
    scan none (render fs ++ more)
      = (fs.map Flag.item ++ (scan none more).1, (scan none more).2) := by
  induction fs with
  | nil => rfl
  | cons f fs ih => simp [render, scan_tokens, ih]

/-- An unknown option decodes to an error. -/
theorem scan_unknownOption (u : String) (rest : List String) (hu : unknownOption u = true) :
    ∃ items args, scan none (u :: rest) = (Item.bad :: items, args) := by
  unfold unknownOption at hu
  unfold scan
  cases hc : classify u.toList with
  | endOfOptions => rw [hc] at hu; exact absurd hu (by simp)
  | nonOption => rw [hc] at hu; exact absurd hu (by simp)
  | long body =>
    rw [hc] at hu
    simp only [Option.isNone_iff_eq_none] at hu
    simp [decodeLong, hu]
  | short cluster =>
    rw [hc] at hu
    cases cluster with
    | nil => exact absurd hu (by simp)
    | cons c cs =>
      simp only [Option.isNone_iff_eq_none] at hu
      simp [decodeShort, hu]

/-- Recognised flags followed by an unknown option: the flags are applied, then
the process ends with the usage error; what follows is not looked at. -/
theorem argp_parse_unknownOption (g : Globals) (fs : List Flag) (u : String)
    (rest : List String) (hu : unknownOption u = true) :
    argp_parse g (render fs ++ u :: rest)
      = ⟨fs.foldl (fun g f => f.apply g) g, some EX_USAGE⟩ := by
  obtain ⟨items, args, hs⟩ := scan_unknownOption u rest hu
  rw [argp_parse_eq, scan_render_append, hs]
  simp only []
  rw [handle_flags]
  rfl

/-! ## Lemmas on successful parses -/

/-- A parse that returns has handled every item, and there was no non-option
argument. -/
theorem handle_ok (items : List Item) (g : Globals) (args : List String)
    (h : (handle g args items).exit = none) :
    (handle g args items).state = items.foldl (fun g i => i.effect g) g := by
  induction items generalizing g with
  | nil => simp [handle, finish_eq]
  | cons i items ih =>
    cases i with
    | bad => simp [handle] at h
    | opt hd arg =>
      cases hd with
      | user key =>
        simp only [handle] at h ⊢
        by_cases hk : (parse_opt key (arg.getD "") g).1 = 0
        · simp only [hk, if_true] at h ⊢
          rw [ih _ h]
          rfl
        · simp [hk] at h
      | help => simp [handle] at h
      | usage => simp [handle] at h
      | version => simp [handle] at h
      | progName => simp only [handle] at h ⊢; rw [ih _ h]; rfl
      | hang => simp only [handle] at h ⊢; rw [ih _ h]; rfl

theorem argp_parse_ok (g : Globals) (args : List String)
    (h : (argp_parse g args).exit = none) :
    (argp_parse g args).state = (scan none args).1.foldl (fun g i => i.effect g) g := by
  rw [argp_parse_eq] at h ⊢
  exact handle_ok _ _ _ h

/-- A key is the key of one of the twelve options, or `parse_opt` answers
`ARGP_ERR_UNKNOWN` and leaves the globals alone. -/
theorem parse_opt_key_cases (key : Int) :
    (∃ k : Kind, key = k.key)
    ∨ ((∀ k : Kind, key ≠ k.key)
        ∧ ∀ (arg : String) (g : Globals), parse_opt key arg g = (ARGP_ERR_UNKNOWN, g)) := by
  by_cases h1 : key = GUIX_OPT_DISABLE_CHROOT
  · exact Or.inl ⟨Kind.disableChroot, h1⟩
  by_cases h2 : key = GUIX_OPT_CHROOT_DIR
  · exact Or.inl ⟨Kind.chrootDirectory, h2⟩
  by_cases h3 : key = GUIX_OPT_DISABLE_LOG_COMPRESSION
  · exact Or.inl ⟨Kind.disableLogCompression, h3⟩
  by_cases h4 : key = GUIX_OPT_BUILD_USERS_GROUP
  · exact Or.inl ⟨Kind.buildUsersGroup, h4⟩
  by_cases h5 : key = GUIX_OPT_DISABLE_STORE_OPTIMIZATION
  · exact Or.inl ⟨Kind.disableStoreOptimization, h5⟩
  by_cases h6 : key = GUIX_OPT_CACHE_FAILURES
  · exact Or.inl ⟨Kind.cacheFailures, h6⟩
  by_cases h7 : key = GUIX_OPT_IMPERSONATE_LINUX_26
  · exact Or.inl ⟨Kind.impersonateLinux26, h7⟩
  by_cases h8 : key = GUIX_OPT_LOSE_LOGS
  · exact Or.inl ⟨Kind.loseLogs, h8⟩
  by_cases h9 : key = GUIX_OPT_DEBUG
  · exact Or.inl ⟨Kind.debug, h9⟩
  by_cases h10 : key = KEY_C
  · exact Or.inl ⟨Kind.buildCores, h10⟩
  by_cases h11 : key = KEY_M
  · exact Or.inl ⟨Kind.maxJobs, h11⟩
  by_cases h12 : key = GUIX_OPT_SYSTEM
  · exact Or.inl ⟨Kind.system, h12⟩
  refine Or.inr ⟨?_, ?_⟩
  · intro k
    cases k <;> assumption
  · intro arg g
    rw [parse_opt, if_neg h1, if_neg h2, if_neg h3, if_neg h4, if_neg h5, if_neg h6,
      if_neg h7, if_neg h8, if_neg h9, if_neg h10, if_neg h11, if_neg h12]

/-- What one call of `parse_opt` does to `dirsInChroot`. -/
theorem parse_opt_dirsInChroot (key : Int) (arg : String) (g : Globals) :
    (parse_opt key arg g).2.settings.dirsInChroot
      = if key = GUIX_OPT_CHROOT_DIR then insert arg g.settings.dirsInChroot
        else g.settings.dirsInChroot := by
  rcases parse_opt_key_cases key with ⟨k, rfl⟩ | ⟨hne, hun⟩
  · cases k <;> rfl
  · have h : key ≠ GUIX_OPT_CHROOT_DIR := hne Kind.chrootDirectory
    rw [hun, if_neg h]

theorem effect_dirsInChroot (i : Item) (g : Globals) :
    (i.effect g).settings.dirsInChroot
      = g.settings.dirsInChroot ∪ (Option.toList (i.argOf GUIX_OPT_CHROOT_DIR)).toFinset := by
  cases i with
  | bad => simp [Item.effect, Item.argOf]
  | opt hd arg =>
    cases hd with
    | user key =>
      simp only [Item.effect, Item.argOf, parse_opt_dirsInChroot]
      split_ifs
      · ext x; simp [or_comm]
      · simp
    | _ => simp [Item.effect, Item.argOf]

theorem foldl_effect_dirsInChroot (items : List Item) (g : Globals) :
    (items.foldl (fun g i => i.effect g) g).settings.dirsInChroot
      = g.settings.dirsInChroot
          ∪ (items.filterMap (Item.argOf GUIX_OPT_CHROOT_DIR)).toFinset := by
  induction items generalizing g with
  | nil => simp
  | cons i items ih =>
    simp only [List.foldl_cons]
    rw [ih, effect_dirsInChroot]
    ext x
    cases hi : i.argOf GUIX_OPT_CHROOT_DIR
    · simp [List.filterMap_cons, hi]
    · simp only [List.filterMap_cons, hi, Option.toList_some, List.toFinset_cons,
        List.toFinset_nil, Finset.mem_union, Finset.mem_insert, Finset.not_mem_empty, or_false,
        insert_emptyc_eq, Finset.mem_singleton]
      tauto

theorem argsOf_render (k : Int) (fs : List Flag) :
    argsOf k (render fs) = fs.filterMap (fun f => f.item.argOf k) := by
  simp [argsOf, scan_render, List.filterMap_map, Function.comp_def]

theorem Flag.item_argOf_chrootDir (f : Flag) : f.item.argOf GUIX_OPT_CHROOT_DIR = f.dir := by
  cases f <;> rfl

theorem chrootDirs_render (fs : List Flag) : chrootDirs (render fs) = fs.filterMap Flag.dir := by
  rw [chrootDirs, argsOf_render]
  congr 1
  funext f
  exact Flag.item_argOf_chrootDir f

/-! ## Lemmas on the scalar options -/

theorem parse_opt_thisSystem (key : Int) (arg : String) (g : Globals) :
    (parse_opt key arg g).2.settings.thisSystem
      = if key = GUIX_OPT_SYSTEM then arg else g.settings.thisSystem := by
  rcases parse_opt_key_cases key with ⟨k, rfl⟩ | ⟨hne, hun⟩
  · cases k <;> rfl
  · have h : key ≠ GUIX_OPT_SYSTEM := hne Kind.system
    rw [hun, if_neg h]

theorem parse_opt_buildUsersGroup (key : Int) (arg : String) (g : Globals) :
    (parse_opt key arg g).2.settings.buildUsersGroup
      = if key = GUIX_OPT_BUILD_USERS_GROUP then arg else g.settings.buildUsersGroup := by
  rcases parse_opt_key_cases key with ⟨k, rfl⟩ | ⟨hne, hun⟩
  · cases k <;> rfl
  · have h : key ≠ GUIX_OPT_BUILD_USERS_GROUP := hne Kind.buildUsersGroup
    rw [hun, if_neg h]

theorem parse_opt_buildCores (key : Int) (arg : String) (g : Globals) :
    (parse_opt key arg g).2.settings.buildCores
      = if key = KEY_C then atoi arg else g.settings.buildCores := by
  rcases parse_opt_key_cases key with ⟨k, rfl⟩ | ⟨hne, hun⟩
  · cases k <;> rfl
  · have h : key ≠ KEY_C := hne Kind.buildCores
    rw [hun, if_neg h]

theorem parse_opt_maxBuildJobs (key : Int) (arg : String) (g : Globals) :
    (parse_opt key arg g).2.settings.maxBuildJobs
      = if key = KEY_M then atoi arg else g.settings.maxBuildJobs := by
  rcases parse_opt_key_cases key with ⟨k, rfl⟩ | ⟨hne, hun⟩
  · cases k <;> rfl
  · have h : key ≠ KEY_M := hne Kind.maxJobs
    rw [hun, if_neg h]

/-- A field that `parse_opt` assigns under key `k` only, to a value computed
from the argument, is after an item the value of the item's argument, when
the item is an option with key `k`, and unchanged otherwise. -/
theorem effect_scalar {α : Type} (π : Globals → α) (val : String → α) (k : Int)
    (hk : ∀ key arg g, π (parse_opt key arg g).2 = if key = k then val arg else π g)
    (i : Item) (g : Globals) :
    π (i.effect g) = ((i.argOf k).map val).getD (π g) := by
  cases i with
  | bad => rfl
  | opt hd arg =>
    cases hd with
    | user key =>
      simp only [Item.effect, Item.argOf, hk]
      split_ifs <;> rfl
    | _ => rfl

/-- Such a field holds, after a sequence of items, the value of the last
argument given under key `k`, or its initial value when there is none. -/
theorem foldl_effect_scalar {α : Type} (π : Globals → α) (val : String → α) (k : Int)
    (hk : ∀ key arg g, π (parse_opt key arg g).2 = if key = k then val arg else π g)
    (items : List Item) (g : Globals) :
    π (items.foldl (fun g i => i.effect g) g)
      = (((items.filterMap (Item.argOf k)).getLast?).map val).getD (π g) := by
  induction items generalizing g with
  | nil => rfl
  | cons i items ih =>
    simp only [List.foldl_cons]
    rw [ih, effect_scalar π val k hk]
    cases hi : i.argOf k with
    | none => simp [List.filterMap_cons, hi]
    | some a =>
      simp only [List.filterMap_cons, hi, List.getLast?_cons]
      cases (items.filterMap (Item.argOf k)).getLast? <;> rfl

/-- A scalar flag has its documented effect whatever the globals before. -/
theorem Flag.documented_apply_scalar (f : Flag) (hs : f.kind.scalar = true) (s g : Globals) :
    f.documented s (f.apply g) := by
  cases f <;> first | rfl | cases hs

/-! ## Lemmas on `atoi` -/

theorem isdigit_digitChar (d : Nat) (h : d < 10) : isdigit (digitChar d) = true := by
  interval_cases d <;> rfl

theorem toNat_digitChar (d : Nat) (h : d < 10) : (digitChar d).toNat - 48 = d := by
  interval_cases d <;> rfl

theorem isspace_digitChar (d : Nat) (h : d < 10) : isspace (digitChar d) = false := by
  interval_cases d <;> rfl

theorem digitChar_ne_minus (d : Nat) (h : d < 10) : digitChar d ≠ Char.ofNat 45 := by
  interval_cases d <;> decide

theorem digitChar_ne_plus (d : Nat) (h : d < 10) : digitChar d ≠ Char.ofNat 43 := by
  interval_cases d <;> decide

/-- Reading stops at once at a string that does not start with a digit. -/
theorem readDigits_junk (acc : Nat) (junk : List Char)
    (hj : ∀ c ∈ junk.head?, isdigit c = false) : readDigits acc junk = acc := by
  cases junk with
  | nil => rfl
  | cons c cs =>
    have : isdigit c = false := hj c (by simp)
    simp [readDigits, this]

/-- Reading a run of digits followed by a non-digit accumulates the digits. -/
theorem readDigits_digits (ds : List Nat) (hds : ∀ d ∈ ds, d < 10) (acc : Nat)
    (junk : List Char) (hj : ∀ c ∈ junk.head?, isdigit c = false) :
    readDigits acc (ds.map digitChar ++ junk) = ds.foldl (fun a d => a * 10 + d) acc := by
  induction ds generalizing acc with
  | nil => exact readDigits_junk acc junk hj
  | cons d ds ih =>
    have hd : d < 10 := hds d (List.mem_cons_self d ds)
    simp only [List.map_cons, List.cons_append, readDigits, isdigit_digitChar d hd, if_true,
      toNat_digitChar d hd, List.foldl_cons]
    exact ih (fun d' hd' => hds d' (List.mem_cons_of_mem d hd')) _

theorem foldl_reverse_digits (L : List Nat) :
    L.reverse.foldl (fun a d => a * 10 + d) 0 = Nat.ofDigits 10 L := by
  rw [List.foldl_reverse]
  induction L with
  | nil => rfl
  | cons d L ih =>
    simp only [List.foldr_cons, Nat.ofDigits_cons, ih]
    ring

theorem natDigits_lt (n : Nat) : ∀ d ∈ natDigits n, d < 10 := by
  intro d hd
  unfold natDigits at hd
  split_ifs at hd with h0
  · simp at hd; omega
  · exact Nat.digits_lt_base (by norm_num) (List.mem_reverse.mp hd)

theorem natDigits_value (n : Nat) : (natDigits n).foldl (fun a d => a * 10 + d) 0 = n := by
  unfold natDigits
  split_ifs with h0
  · simp [h0]
  · rw [foldl_reverse_digits, Nat.ofDigits_digits]

theorem natDigits_ne_nil (n : Nat) : natDigits n ≠ [] := by
  unfold natDigits
  split_ifs with h0
  · simp
  · simp [Nat.digits_ne_nil_iff_ne_zero, h0]

/-- `strtol` on a string that does not start with white space. -/
theorem strtol_cons (c : Char) (cs : List Char) (h : isspace c = false) :
    strtol (c :: cs)
      = if c = Char.ofNat 45 then
          (if -(readDigits 0 cs : Int) < LONG_MIN then LONG_MIN else -(readDigits 0 cs : Int))
        else
          (if LONG_MAX < (readDigits 0 (if c = Char.ofNat 43 then cs else c :: cs) : Int)
            then LONG_MAX
            else (readDigits 0 (if c = Char.ofNat 43 then cs else c :: cs) : Int)) := by
  have hs : skipSpace (c :: cs) = c :: cs := by simp [skipSpace, h]
  unfold strtol
  rw [hs]

/-- `strtol` on the digits of `n` followed by a non-digit reads `n`, up to
saturation. -/
theorem strtol_natDigits (n : Nat) (junk : List Char)
    (hj : ∀ c ∈ junk.head?, isdigit c = false) :
    strtol ((natDigits n).map digitChar ++ junk) = if LONG_MAX < (n : Int) then LONG_MAX else n := by
  have hval := readDigits_digits (natDigits n) (natDigits_lt n) 0 junk hj
  rw [natDigits_value] at hval
  have hlt := natDigits_lt n
  cases hds : natDigits n with
  | nil => exact absurd hds (natDigits_ne_nil n)
  | cons d ds =>
    rw [hds] at hval hlt
    have hd : d < 10 := hlt d (List.mem_cons_self d ds)
    simp only [List.map_cons, List.cons_append] at hval ⊢
    rw [strtol_cons _ _ (isspace_digitChar d hd), if_neg (digitChar_ne_minus d hd),
      if_neg (digitChar_ne_plus d hd), hval]

/-- `strtol` on `-` and the digits of `n` followed by a non-digit reads `-n`,
up to saturation. -/
theorem strtol_neg_natDigits (n : Nat) (junk : List Char)
    (hj : ∀ c ∈ junk.head?, isdigit c = false) :
    strtol (Char.ofNat 45 :: ((natDigits n).map digitChar ++ junk))
      = if -(n : Int) < LONG_MIN then LONG_MIN else -(n : Int) := by
  have hval := readDigits_digits (natDigits n) (natDigits_lt n) 0 junk hj
  rw [natDigits_value] at hval
  have hsp : isspace (Char.ofNat 45) = false := rfl
  rw [strtol_cons _ _ hsp, if_pos rfl, hval]

/-- The numeral of an `int`, followed by anything that does not start with a
digit, is read back by `atoi` as that `int`. -/
theorem atoi_numeral_append (n : Int) (hlo : -2 ^ 31 ≤ n) (hhi : n < 2 ^ 31)
    (junk : List Char) (hj : ∀ c ∈ junk.head?, isdigit c = false) :
    atoi (String.mk ((numeral n).toList ++ junk)) = n := by
  unfold numeral atoi
  by_cases h0 : 0 ≤ n
  · simp only [h0, if_true, String.toList]
    rw [strtol_natDigits n.toNat junk hj]
    have : (n.toNat : Int) = n := Int.toNat_of_nonneg h0
    rw [this]
    unfold LONG_MAX toInt32
    split_ifs <;> omega
  · simp only [h0, if_false, String.toList, List.cons_append]
    rw [strtol_neg_natDigits (-n).toNat junk hj]
    have : ((-n).toNat : Int) = -n := Int.toNat_of_nonneg (by omega)
    rw [this]
    unfold LONG_MIN toInt32
    split_ifs <;> omega

theorem atoi_numeral (n : Int) (hlo : -2 ^ 31 ≤ n) (hhi : n < 2 ^ 31) :
    atoi (numeral n) = n := by
  have h := atoi_numeral_append n hlo hhi [] (by simp)
  simpa using h

/-- Without a digit where the number should start, `atoi` yields 0. -/
theorem atoi_no_number (s : String) (h : startsWithNumber s = false) : atoi s = 0 := by
  unfold startsWithNumber at h
  unfold atoi strtol
  cases hs : skipSpace s.toList with
  | nil => rfl
  | cons c cs =>
    rw [hs] at h
    simp only at h ⊢
    by_cases hm : c = Char.ofNat 45
    · subst hm
      have h1 : ∀ d ∈ cs.head?, isdigit d = false := by
        cases cs with
        | nil => simp
        | cons d ds => simpa using h
      simp [readDigits_junk 0 cs h1, LONG_MIN, toInt32]
    · by_cases hp : c = Char.ofNat 43
      · subst hp
        have h1 : ∀ d ∈ cs.head?, isdigit d = false := by
          cases cs with
          | nil => simp
          | cons d ds => simpa using h
        simp [readDigits_junk 0 cs h1, LONG_MAX, toInt32]
      · simp only [hm, hp, or_self, if_false] at h
        simp [hm, hp, readDigits, h, LONG_MAX, toInt32]

/-! ## `atoi` on an arbitrary string -/

theorem skipSpace_spaces (ws rest : List Char) (h : ∀ c ∈ ws, isspace c = true) :
    skipSpace (ws ++ rest) = skipSpace rest := by
  induction ws with
  | nil => rfl
  | cons c ws ih =>
    have hc : isspace c = true := h c (List.mem_cons_self c ws)
    simp only [List.cons_append, skipSpace, hc, if_true]
    exact ih (fun c' hc' => h c' (List.mem_cons_of_mem c hc'))

/-- A digit is neither white space nor a sign. -/
theorem isdigit_not_special (c : Char) (h : isdigit c = true) :
    isspace c = false ∧ c ≠ Char.ofNat 45 ∧ c ≠ Char.ofNat 43 := by
  simp only [isdigit, Bool.and_eq_true, decide_eq_true_eq] at h
  refine ⟨?_, ?_, ?_⟩
  · simp only [isspace, Bool.or_eq_false_iff, Bool.and_eq_false_iff, decide_eq_false_iff_not]
    omega
  · intro hc
    have : c.toNat = 45 := by rw [hc]; rfl
    omega
  · intro hc
    have : c.toNat = 43 := by rw [hc]; rfl
    omega

/-- Reading a run of digit characters followed by a non-digit accumulates
their decimal value. -/
theorem readDigits_chars (ds junk : List Char) (acc : Nat)
    (hds : ∀ c ∈ ds, isdigit c = true) (hj : ∀ c ∈ junk.head?, isdigit c = false) :
    readDigits acc (ds ++ junk) = ds.foldl (fun a c => a * 10 + (c.toNat - 48)) acc := by
  induction ds generalizing acc with
  | nil => exact readDigits_junk acc junk hj
  | cons d ds ih =>
    have hd : isdigit d = true := hds d (List.mem_cons_self d ds)
    simp only [List.cons_append, readDigits, hd, if_true, List.foldl_cons]
    exact ih _ (fun c hc => hds c (List.mem_cons_of_mem d hc))

theorem strtol_nil : strtol [] = 0 := rfl

/-- `strtol` on a string split into white space, sign, digits and the rest:
the signed value of the digits, saturated. -/
theorem strtol_parts (ws : List Char) (sg : Sign) (digits junk : List Char)
    (h : NumberParts ws sg digits junk) :
    strtol (ws ++ sg.chars ++ digits ++ junk) = toLong (sg.apply (decimalValue digits)) := by
  obtain ⟨hws, hds, hj, hmax⟩ := h
  have hread := readDigits_chars digits junk 0 hds hj
  have hskip : ∀ rest, strtol (ws ++ rest) = strtol rest := by
    intro rest
    unfold strtol
    rw [skipSpace_spaces ws rest hws]
  rw [List.append_assoc, List.append_assoc, hskip]
  cases sg with
  | minus =>
    have hsp : isspace (Char.ofNat 45) = false := rfl
    show strtol (Char.ofNat 45 :: (digits ++ junk)) = _
    rw [strtol_cons _ _ hsp, if_pos rfl, hread]
    have e : Sign.apply Sign.minus (decimalValue digits) = -((decimalValue digits : Nat) : Int) :=
      rfl
    rw [e]
    unfold toLong decimalValue LONG_MIN LONG_MAX
    split_ifs <;> omega
  | plus =>
    have hsp : isspace (Char.ofNat 43) = false := rfl
    have hne : Char.ofNat 43 ≠ Char.ofNat 45 := by decide
    show strtol (Char.ofNat 43 :: (digits ++ junk)) = _
    rw [strtol_cons _ _ hsp, if_neg hne, if_pos rfl, hread]
    have e : Sign.apply Sign.plus (decimalValue digits) = ((decimalValue digits : Nat) : Int) :=
      rfl
    rw [e]
    unfold toLong decimalValue LONG_MIN LONG_MAX
    split_ifs <;> omega
  | absent =>
    show strtol (digits ++ junk) = _
    cases hdig : digits with
    | cons d ds =>
      rw [hdig] at hread hds
      obtain ⟨hsp, hm, hp⟩ := isdigit_not_special d (hds d (List.mem_cons_self d ds))
      rw [List.cons_append, strtol_cons _ _ hsp, if_neg hm, if_neg hp]
      rw [List.cons_append] at hread
      rw [hread]
      have e : Sign.apply Sign.absent (decimalValue (d :: ds))
          = ((decimalValue (d :: ds) : Nat) : Int) := rfl
      rw [e]
      unfold toLong decimalValue LONG_MIN LONG_MAX
      split_ifs <;> omega
    | nil =>
      rw [List.nil_append]
      cases hjunk : junk with
      | nil => rw [strtol_nil]; decide
      | cons c cs =>
        rw [hjunk] at hj hmax
        obtain ⟨hsp, hp, hm⟩ := hmax rfl hdig c (by simp)
        have hnd : isdigit c = false := hj c (by simp)
        rw [strtol_cons _ _ hsp, if_neg hm, if_neg hp, readDigits, hnd]
        rfl

/-- Every string splits into white space, sign, digits and the rest. -/
theorem numberParts_exist (s : List Char) :
    ∃ ws sg digits junk, s = ws ++ Sign.chars sg ++ digits ++ junk
      ∧ NumberParts ws sg digits junk := by
  have hsplit := List.takeWhile_append_dropWhile isspace s
  have hws : ∀ c ∈ s.takeWhile isspace, isspace c = true :=
    fun c hc => List.mem_takeWhile_imp hc
  have hhead := List.head?_dropWhile_not isspace s
  have digitsOf : ∀ r : List Char,
      r = r.takeWhile isdigit ++ r.dropWhile isdigit
      ∧ (∀ c ∈ r.takeWhile isdigit, isdigit c = true)
      ∧ (∀ c ∈ (r.dropWhile isdigit).head?, isdigit c = false) := by
    intro r
    refine ⟨(List.takeWhile_append_dropWhile isdigit r).symm,
      fun c hc => List.mem_takeWhile_imp hc, ?_⟩
    intro c hc
    have := List.head?_dropWhile_not isdigit r
    rw [Option.mem_def] at hc
    rw [hc] at this
    exact this
  cases hr : s.dropWhile isspace with
  | nil =>
    refine ⟨s.takeWhile isspace, Sign.absent, [], [], ?_, hws, ?_, ?_, ?_⟩
    · rw [hr] at hsplit
      simpa [Sign.chars] using hsplit.symm
    · intro c hc; simp at hc
    · intro c hc; simp at hc
    · intro _ _ c hc; simp at hc
  | cons c cs =>
    rw [hr] at hsplit hhead
    have hcsp : isspace c = false := hhead
    by_cases hm : c = Char.ofNat 45
    · obtain ⟨h1, h2, h3⟩ := digitsOf cs
      refine ⟨s.takeWhile isspace, Sign.minus, cs.takeWhile isdigit, cs.dropWhile isdigit,
        ?_, hws, h2, h3, ?_⟩
      · conv_lhs => rw [← hsplit, hm]
        simp [Sign.chars, List.takeWhile_append_dropWhile]
      · intro h; cases h
    · by_cases hp : c = Char.ofNat 43
      · obtain ⟨h1, h2, h3⟩ := digitsOf cs
        refine ⟨s.takeWhile isspace, Sign.plus, cs.takeWhile isdigit, cs.dropWhile isdigit,
          ?_, hws, h2, h3, ?_⟩
        · conv_lhs => rw [← hsplit, hp]
          simp [Sign.chars, List.takeWhile_append_dropWhile]
        · intro h; cases h
      · obtain ⟨h1, h2, h3⟩ := digitsOf (c :: cs)
        refine ⟨s.takeWhile isspace, Sign.absent, (c :: cs).takeWhile isdigit,
          (c :: cs).dropWhile isdigit, ?_, hws, h2, h3, ?_⟩
        · conv_lhs => rw [← hsplit]
          simp [Sign.chars, List.takeWhile_append_dropWhile]
        · intro _ hnil d hd
          rw [hnil, List.nil_append] at h1
          rw [← h1] at hd
          simp only [List.head?_cons, Option.mem_def, Option.some.injEq] at hd
          subst hd
          exact ⟨hcsp, hp, hm⟩

/-- A value of the `int` type is left as it is by the saturation and by the
conversion to `int`. -/
theorem toInt32_toLong (z : Int) (hlo : -2 ^ 31 ≤ z) (hhi : z < 2 ^ 31) :
    toInt32 (toLong z) = z := by
  unfold toInt32 toLong LONG_MIN LONG_MAX
  split_ifs <;> omega

theorem isErrorLine_error (m : String) : isErrorLine ("error: " ++ m) = true := by
  unfold isErrorLine
  rw [List.isPrefixOf_iff_prefix]
  simp only [String.toList, String.data_append]
  exact List.prefix_append _ _

/-! ## Lemmas on `main` -/

/-- What `main` does once the environment has been applied and the arguments
have been parsed: it warns if need be and calls `run` once, with no
argument. -/
theorem main_of_parse_ok (env : Env) (init : Globals) (args : List String) (s1 : Settings)
    (henv : env.processEnvironment { init.settings with useChroot := env.HAVE_CHROOT }
      = Except.ok s1)
    (hparse : (argp_parse (beforeParsing init s1) args).exit = none) :
    main env init args
      = match env.run [] (argp_parse (beforeParsing init s1) args).state with
        | RunResult.returns =>
          ⟨warning env (argp_parse (beforeParsing init s1) args).state,
            [([], (argp_parse (beforeParsing init s1) args).state)],
            Outcome.returned EXIT_SUCCESS⟩
        | RunResult.throws what =>
          ⟨warning env (argp_parse (beforeParsing init s1) args).state ++ [errorLine what],
            [([], (argp_parse (beforeParsing init s1) args).state)],
            Outcome.returned EXIT_FAILURE⟩
        | RunResult.forever =>
          ⟨warning env (argp_parse (beforeParsing init s1) args).state,
            [([], (argp_parse (beforeParsing init s1) args).state)], Outcome.serving⟩ := by
  unfold main
  simp only [henv]
  unfold beforeParsing at hparse ⊢
  simp only [hparse]
  rfl

theorem main_of_parse_exit (env : Env) (init : Globals) (args : List String) (s1 : Settings)
    (status : Int)
    (henv : env.processEnvironment { init.settings with useChroot := env.HAVE_CHROOT }
      = Except.ok s1)
    (hparse : (argp_parse (beforeParsing init s1) args).exit = some status) :
    main env init args = ⟨[], [], Outcome.exited status⟩ := by
  unfold main
  simp only [henv]
  unfold beforeParsing at hparse
  simp only [hparse]

theorem main_of_env_error (env : Env) (init : Globals) (args : List String) (what : String)
    (henv : env.processEnvironment { init.settings with useChroot := env.HAVE_CHROOT }
      = Except.error what) :
    main env init args = ⟨[errorLine what], [], Outcome.returned EXIT_FAILURE⟩ := by
  unfold main
  simp only [henv]

/-- The error line is never the warning line. -/
theorem errorLine_ne_warningLine (what : String) : errorLine what ≠ warningLine := by
  intro h
  have h1 : (errorLine what).data.head? = warningLine.data.head? := by rw [h]
  simp [errorLine, warningLine, String.data_append] at h1

theorem count_warning (env : Env) (g : Globals) (what : String) :
    (warning env g).count (errorLine what) = 0
    ∧ (warning env g).count warningLine
        = if env.geteuid = 0 ∧ g.settings.buildUsersGroup = "" then 1 else 0 := by
  unfold warning
  split_ifs
  · exact ⟨List.count_eq_zero.mpr (by simpa using errorLine_ne_warningLine what), by simp⟩
  · exact ⟨rfl, rfl⟩

/-- The warning is not a line of the form `error: ...`. -/
theorem filter_warning (env : Env) (g : Globals) : (warning env g).filter isErrorLine = [] := by
  unfold warning
  split_ifs
  · decide
  · rfl

/-! ## Invariants of `argp_parse` -/

/-- A property of the globals that every call of `parse_opt` keeps holds when
`argp_parse` stops, however it stops. -/
theorem handle_invariant (P : Globals → Prop)
    (hP : ∀ key arg g, P g → P (parse_opt key arg g).2)
    (items : List Item) (g : Globals) (args : List String) (hg : P g) :
    P (handle g args items).state := by
  induction items generalizing g with
  | nil => simpa [handle, finish_eq] using hg
  | cons i items ih =>
    cases i with
    | bad => simpa [handle] using hg
    | opt hd arg =>
      cases hd with
      | user key =>
        simp only [handle]
        split_ifs
        · exact ih _ (hP _ _ _ hg)
        · exact hP _ _ _ hg
      | help => simpa [handle] using hg
      | usage => simpa [handle] using hg
      | version => simpa [handle] using hg
      | progName => simpa [handle] using ih g hg
      | hang => simpa [handle] using ih g hg

theorem argp_parse_invariant (P : Globals → Prop)
    (hP : ∀ key arg g, P g → P (parse_opt key arg g).2)
    (g : Globals) (args : List String) (hg : P g) : P (argp_parse g args).state := by
  rw [argp_parse_eq]
  exact handle_invariant P hP _ g _ hg

/-- No call of `parse_opt` touches the substitution settings. -/
theorem parse_opt_substitution (key : Int) (arg : String) (g : Globals) :
    (parse_opt key arg g).2.settings.useSubstitutes = g.settings.useSubstitutes
    ∧ (parse_opt key arg g).2.settings.substituters = g.settings.substituters := by
  rcases parse_opt_key_cases key with ⟨k, rfl⟩ | ⟨_, hun⟩
  · cases k <;> exact ⟨rfl, rfl⟩
  · rw [hun]
    exact ⟨rfl, rfl⟩

theorem parse_opt_useChroot (key : Int) (arg : String) (g : Globals) :
    (parse_opt key arg g).2.settings.useChroot
      = if key = GUIX_OPT_DISABLE_CHROOT then false else g.settings.useChroot := by
  rcases parse_opt_key_cases key with ⟨k, rfl⟩ | ⟨hne, hun⟩
  · cases k <;> rfl
  · have h : key ≠ GUIX_OPT_DISABLE_CHROOT := hne Kind.disableChroot
    rw [hun, if_neg h]

/-- After a parse that returns, `useChroot` is set exactly when it was set
before and `--disable-chroot` does not occur. -/
theorem argp_parse_useChroot (g : Globals) (args : List String)
    (h : (argp_parse g args).exit = none) :
    (argp_parse g args).state.settings.useChroot
      = (g.settings.useChroot && !occurs GUIX_OPT_DISABLE_CHROOT args) := by
  rw [argp_parse_ok g args h]
  have := foldl_effect_scalar (fun g => g.settings.useChroot) (fun _ => false)
    GUIX_OPT_DISABLE_CHROOT parse_opt_useChroot (scan none args).1 g
  simp only at this
  rw [this, occurs, argsOf]
  cases hl : List.filterMap (Item.argOf GUIX_OPT_DISABLE_CHROOT) (scan none args).1 with
  | nil => simp
  | cons a l => simp [List.getLast?_cons]

theorem occurs_render_disableChroot (fs : List Flag) :
    occurs GUIX_OPT_DISABLE_CHROOT (render fs) = decide (Flag.disableChroot ∈ fs) := by
  rw [occurs, argsOf_render]
  induction fs with
  | nil => rfl
  | cons f fs ih =>
    cases f <;> simp_all [List.filterMap_cons, Flag.item, Item.argOf, Flag.kind, Kind.key,
      Flag.arg, GUIX_OPT_DISABLE_CHROOT, GUIX_OPT_SYSTEM, KEY_C, KEY_M, GUIX_OPT_CHROOT_DIR,
      GUIX_OPT_BUILD_USERS_GROUP, GUIX_OPT_CACHE_FAILURES, GUIX_OPT_LOSE_LOGS,
      GUIX_OPT_DISABLE_LOG_COMPRESSION, GUIX_OPT_DISABLE_STORE_OPTIMIZATION,
      GUIX_OPT_IMPERSONATE_LINUX_26, GUIX_OPT_DEBUG]

/-! ## Commutation, idempotence and the switches -/

theorem parse_opt_chrootDir (arg : String) (g : Globals) :
    parse_opt GUIX_OPT_CHROOT_DIR arg g
      = (0, { g with settings :=
                { g.settings with dirsInChroot := insert arg g.settings.dirsInChroot } }) :=
  rfl

/-- Two options of the table commute when they are different options, when
the option is not a scalar one, or when the arguments are the same. -/
theorem parse_opt_comm_kind (k1 k2 : Kind) (a1 a2 : String) (g : Globals)
    (h : k1 ≠ k2 ∨ k1.scalar = false ∨ a1 = a2) :
    (parse_opt k2.key a2 (parse_opt k1.key a1 g).2).2
      = (parse_opt k1.key a1 (parse_opt k2.key a2 g).2).2 := by
  cases k1 <;> cases k2 <;>
    first
    | rfl
    | (show (parse_opt GUIX_OPT_CHROOT_DIR a2 (parse_opt GUIX_OPT_CHROOT_DIR a1 g).2).2
          = (parse_opt GUIX_OPT_CHROOT_DIR a1 (parse_opt GUIX_OPT_CHROOT_DIR a2 g).2).2
       simp only [parse_opt_chrootDir]
       rw [Finset.Insert.comm])
    | (rcases h with h | h | h
       · exact absurd rfl h
       · cases h
       · subst h; rfl)

/-- Two calls of `parse_opt` with different keys commute. -/
theorem parse_opt_comm_of_ne (k1 k2 : Int) (a1 a2 : String) (g : Globals) (h : k1 ≠ k2) :
    (parse_opt k2 a2 (parse_opt k1 a1 g).2).2 = (parse_opt k1 a1 (parse_opt k2 a2 g).2).2 := by
  rcases parse_opt_key_cases k1 with ⟨c1, rfl⟩ | ⟨_, hun1⟩
  · rcases parse_opt_key_cases k2 with ⟨c2, rfl⟩ | ⟨_, hun2⟩
    · exact parse_opt_comm_kind c1 c2 a1 a2 g (Or.inl (fun hc => h (by rw [hc])))
    · rw [hun2, hun2]
  · rw [hun1, hun1]

theorem Flag.apply_comm (x y : Flag) (g : Globals)
    (h : x.kind ≠ y.kind ∨ x.kind.scalar = false ∨ x = y) :
    y.apply (x.apply g) = x.apply (y.apply g) := by
  unfold Flag.apply
  refine parse_opt_comm_kind x.kind y.kind _ _ g ?_
  rcases h with h | h | h
  · exact Or.inl h
  · exact Or.inr (Or.inl h)
  · exact Or.inr (Or.inr (by rw [h]))

/-- Calling `parse_opt` twice with the same key and argument is calling it
once. -/
theorem parse_opt_idem (key : Int) (arg : String) (g : Globals) :
    parse_opt key arg (parse_opt key arg g).2 = parse_opt key arg g := by
  rcases parse_opt_key_cases key with ⟨k, rfl⟩ | ⟨_, hun⟩
  · cases k <;>
      first
      | rfl
      | (show parse_opt GUIX_OPT_CHROOT_DIR arg (parse_opt GUIX_OPT_CHROOT_DIR arg g).2
            = parse_opt GUIX_OPT_CHROOT_DIR arg g
         simp only [parse_opt_chrootDir]
         rw [Finset.insert_idem])
  · rw [hun, hun]

theorem switchesKept_refl (g : Globals) : switchesKept g g :=
  ⟨id, id, id, id, id, id⟩

theorem switchesKept_trans (g r t : Globals) (h1 : switchesKept g r) (h2 : switchesKept r t) :
    switchesKept g t :=
  ⟨fun h => h2.1 (h1.1 h), fun h => h2.2.1 (h1.2.1 h), fun h => h2.2.2.1 (h1.2.2.1 h),
    fun h => h2.2.2.2.1 (h1.2.2.2.1 h), fun h => h2.2.2.2.2.1 (h1.2.2.2.2.1 h),
    fun h => h2.2.2.2.2.2 (h1.2.2.2.2.2 h)⟩

/-- No call of `parse_opt` moves a switch back. -/
theorem parse_opt_switchesKept (key : Int) (arg : String) (g : Globals) :
    switchesKept g (parse_opt key arg g).2 := by
  rcases parse_opt_key_cases key with ⟨k, rfl⟩ | ⟨_, hun⟩
  · cases k <;>
      exact ⟨fun h => (by first | exact h | rfl), fun h => (by first | exact h | rfl),
        fun h => (by first | exact h | rfl), fun h => (by first | exact h | rfl),
        fun h => (by first | exact h | rfl), fun h => (by first | exact h | rfl)⟩
  · rw [hun]
    exact switchesKept_refl g

theorem applyOptions_switchesKept (os : List (Int × String)) (g : Globals) :
    switchesKept g (applyOptions g os) := by
  unfold applyOptions
  induction os generalizing g with
  | nil => exact switchesKept_refl g
  | cons o os ih =>
    simp only [List.foldl_cons]
    exact switchesKept_trans _ _ _ (parse_opt_switchesKept o.1 o.2 g) (ih _)

/-! ## C1: field independence -/

/-- C1. Field independence: for every settings state `s` and every argument
vector made only of supported flags, each option occurring at most once,
parsing succeeds; every flag of the vector has its documented effect (the
targeted field holds the documented value), every field targeted by an option
that does not occur keeps its value in `s`, and the substitution fields, which
no option targets, keep theirs.  The spec's example: `--disable-chroot
--lose-logs` sets `useChroot` and `keepLog` to false and nothing else. -/
theorem C1_field_independence (s : Globals) (fs : List Flag)
    (h : (fs.map Flag.kind).Nodup) :
    (∃ r : Globals, argp_parse s (render fs) = ⟨r, none⟩
      ∧ (∀ f ∈ fs, f.documented s r)
      ∧ (∀ k : Kind, k ∉ fs.map Flag.kind → k.preserved s r)
      ∧ r.settings.useSubstitutes = s.settings.useSubstitutes
      ∧ r.settings.substituters = s.settings.substituters)
    ∧ argp_parse s ["--disable-chroot", "--lose-logs"]
        = ⟨{ s with settings := { s.settings with useChroot := false, keepLog := false } },
            none⟩ := by
  refine ⟨⟨fs.foldl (fun g f => f.apply g) s, argp_parse_render s fs, ?_, ?_, ?_⟩, ?_⟩
  · intro f hf
    exact foldl_apply_documented fs h s f hf
  · intro k hk
    refine foldl_apply_preserved k fs ?_ s
    intro f hf heq
    exact hk (heq ▸ List.mem_map_of_mem Flag.kind hf)
  · exact foldl_apply_useSubstitutes fs s
  · exact argp_parse_render s [Flag.disableChroot, Flag.loseLogs]

/-- C1 at a concrete input: the defaults and `--disable-chroot --lose-logs`. -/
theorem C1_field_independence_witness :
    ([Flag.disableChroot, Flag.loseLogs].map Flag.kind).Nodup
    ∧ ((∃ r : Globals,
          argp_parse specDefaults (render [Flag.disableChroot, Flag.loseLogs]) = ⟨r, none⟩
        ∧ (∀ f ∈ [Flag.disableChroot, Flag.loseLogs], f.documented specDefaults r)
        ∧ (∀ k : Kind, k ∉ [Flag.disableChroot, Flag.loseLogs].map Flag.kind →
            k.preserved specDefaults r)
        ∧ r.settings.useSubstitutes = specDefaults.settings.useSubstitutes
        ∧ r.settings.substituters = specDefaults.settings.substituters)
      ∧ argp_parse specDefaults ["--disable-chroot", "--lose-logs"]
          = ⟨{ specDefaults with
                settings := { specDefaults.settings with useChroot := false, keepLog := false } },
              none⟩) :=
  ⟨by decide, C1_field_independence specDefaults [Flag.disableChroot, Flag.loseLogs] (by decide)⟩

/-! ## C2: an unknown flag -/

/-- C2 as stated fails: with `--disable-chroot` before the unknown option
`--bogus`, parsing fails with the usage error, and the settings at the failure
differ from the initial ones (`useChroot` has been cleared). -/
theorem C2_counterexample :
    unknownOption "--bogus" = true
    ∧ (argp_parse specDefaults ["--disable-chroot", "--bogus"]).exit = some EX_USAGE
    ∧ (argp_parse specDefaults ["--disable-chroot", "--bogus"]).state ≠ specDefaults
    ∧ (argp_parse specDefaults ["--disable-chroot", "--bogus"]).state.settings.useChroot = false
    ∧ specDefaults.settings.useChroot = true := by
  decide

/-- C2, amended.  For every environment, every initial state and every
argument vector made of recognised flags followed by an unknown option (and
anything after it): parsing ends the process with the usage-error status, the
build service is never started and `main` writes no line; the state at the
failure is the initial one with the flags before the unknown option applied,
so it is the initial state when the unknown option comes first. -/
theorem C2_unknown_flag_fails (env : Env) (s : Globals) (fs : List Flag) (u : String)
    (rest : List String) (hu : unknownOption u = true) :
    argp_parse s (render fs ++ u :: rest)
        = ⟨fs.foldl (fun g f => f.apply g) s, some EX_USAGE⟩
    ∧ argp_parse s (u :: rest) = ⟨s, some EX_USAGE⟩
    ∧ (main env s (render fs ++ u :: rest)).launches = []
    ∧ (∀ s1, env.processEnvironment
          { s.settings with useChroot := env.HAVE_CHROOT } = Except.ok s1 →
        main env s (render fs ++ u :: rest) = ⟨[], [], Outcome.exited EX_USAGE⟩) := by
  refine ⟨argp_parse_unknownOption s fs u rest hu,
    argp_parse_unknownOption s [] u rest hu, ?_, ?_⟩
  · unfold main
    cases henv : env.processEnvironment { s.settings with useChroot := env.HAVE_CHROOT } with
    | error what => simp [henv]
    | ok s1 => simp [henv, argp_parse_unknownOption _ fs u rest hu]
  · intro s1 henv
    unfold main
    simp [henv, argp_parse_unknownOption _ fs u rest hu]

/-- C2 amended, at a concrete input. -/
theorem C2_unknown_flag_fails_witness :
    unknownOption "--bogus" = true
    ∧ (argp_parse specDefaults (render [Flag.disableChroot] ++ "--bogus" :: ["--debug"])
        = ⟨[Flag.disableChroot].foldl (fun g f => f.apply g) specDefaults, some EX_USAGE⟩
      ∧ argp_parse specDefaults ("--bogus" :: ["--debug"]) = ⟨specDefaults, some EX_USAGE⟩
      ∧ (main rootEnv specDefaults
          (render [Flag.disableChroot] ++ "--bogus" :: ["--debug"])).launches = []
      ∧ (∀ s1, rootEnv.processEnvironment
            { specDefaults.settings with
              useChroot := rootEnv.HAVE_CHROOT }
              = Except.ok s1 →
          main rootEnv specDefaults
            (render [Flag.disableChroot] ++ "--bogus" :: ["--debug"])
            = ⟨[], [], Outcome.exited EX_USAGE⟩)) :=
  ⟨by decide,
    C2_unknown_flag_fails rootEnv specDefaults
      [Flag.disableChroot] "--bogus" ["--debug"] (by decide)⟩

/-! ## C3: `--chroot-directory` accumulates -/

/-- C3. Repeated `--chroot-directory` options accumulate into a set: for
every initial state and every argument vector that parses, `dirsInChroot`
after parsing is the initial set united with the set of the directories given
to `--chroot-directory` in the vector: a directory is in the result exactly
when it was there initially or is given, none is present twice, and two
vectors that give the same directories, in whatever order and however often,
yield the same set.  On a vector spelled from flags the directories given are
those of its `--chroot-directory` flags. -/
theorem C3_chroot_directories_accumulate (s : Globals) (args : List String)
    (h : (argp_parse s args).exit = none) :
    (argp_parse s args).state.settings.dirsInChroot
        = s.settings.dirsInChroot ∪ (chrootDirs args).toFinset
    ∧ (∀ d, d ∈ (argp_parse s args).state.settings.dirsInChroot
        ↔ d ∈ s.settings.dirsInChroot ∨ d ∈ chrootDirs args)
    ∧ (argp_parse s args).state.settings.dirsInChroot.val.Nodup
    ∧ (∀ args', (argp_parse s args').exit = none →
        (∀ d, d ∈ chrootDirs args ↔ d ∈ chrootDirs args') →
        (argp_parse s args').state.settings.dirsInChroot
          = (argp_parse s args).state.settings.dirsInChroot)
    ∧ (∀ fs : List Flag, (argp_parse s (render fs)).exit = none
        ∧ chrootDirs (render fs) = fs.filterMap Flag.dir) := by
  have key : ∀ a, (argp_parse s a).exit = none →
      (argp_parse s a).state.settings.dirsInChroot
        = s.settings.dirsInChroot ∪ (chrootDirs a).toFinset := by
    intro a ha
    rw [argp_parse_ok s a ha, foldl_effect_dirsInChroot]
    rfl
  refine ⟨key args h, ?_, Finset.nodup _, ?_, ?_⟩
  · intro d
    rw [key args h]
    simp
  · intro args' h' hsame
    rw [key args h, key args' h']
    congr 1
    ext d
    simp [hsame d]
  · intro fs
    exact ⟨by rw [argp_parse_render], chrootDirs_render fs⟩

/-- C3 at a concrete input: a directory given twice, long option with `=`. -/
theorem C3_chroot_directories_accumulate_witness :
    (argp_parse specDefaults
        ["--chroot-directory", "/a", "--chroot-directory=/b", "--chroot-directory", "/a"]).exit
      = none
    ∧ (argp_parse specDefaults
        ["--chroot-directory", "/a", "--chroot-directory=/b", "--chroot-directory", "/a"]
        ).state.settings.dirsInChroot = {"/a", "/b"} := by
  have h := C3_chroot_directories_accumulate specDefaults
    ["--chroot-directory", "/a", "--chroot-directory=/b", "--chroot-directory", "/a"]
    (by decide)
  refine ⟨by decide, ?_⟩
  rw [h.1]
  decide

/-! ## C4: last occurrence wins -/

/-- C4. Last occurrence wins for the scalar options: for every initial state
and every argument vector that parses, `thisSystem`, `buildUsersGroup`,
`buildCores` and `maxBuildJobs` hold the value given by the last occurrence of
their option in the vector (the initial value when the option does not
occur), whatever the earlier occurrences.  On a vector spelled from flags: a
scalar flag that no later flag of the same option follows has its documented
effect, whatever flags precede it. -/
theorem C4_last_occurrence_wins (s : Globals) (args : List String)
    (h : (argp_parse s args).exit = none) :
    (argp_parse s args).state.settings.thisSystem
        = (lastArg GUIX_OPT_SYSTEM args).getD s.settings.thisSystem
    ∧ (argp_parse s args).state.settings.buildUsersGroup
        = (lastArg GUIX_OPT_BUILD_USERS_GROUP args).getD s.settings.buildUsersGroup
    ∧ (argp_parse s args).state.settings.buildCores
        = ((lastArg KEY_C args).map atoi).getD s.settings.buildCores
    ∧ (argp_parse s args).state.settings.maxBuildJobs
        = ((lastArg KEY_M args).map atoi).getD s.settings.maxBuildJobs
    ∧ (∀ (pre post : List Flag) (f : Flag), f.kind.scalar = true →
        (∀ f' ∈ post, f'.kind ≠ f.kind) →
        (argp_parse s (render (pre ++ f :: post))).exit = none
        ∧ f.documented s (argp_parse s (render (pre ++ f :: post))).state) := by
  rw [argp_parse_ok s args h]
  refine ⟨?_, ?_, ?_, ?_, ?_⟩
  · have := foldl_effect_scalar (fun g => g.settings.thisSystem) id GUIX_OPT_SYSTEM
      parse_opt_thisSystem (scan none args).1 s
    simpa [lastArg, argsOf] using this
  · have := foldl_effect_scalar (fun g => g.settings.buildUsersGroup) id
      GUIX_OPT_BUILD_USERS_GROUP parse_opt_buildUsersGroup (scan none args).1 s
    simpa [lastArg, argsOf] using this
  · exact foldl_effect_scalar (fun g => g.settings.buildCores) atoi KEY_C
      parse_opt_buildCores (scan none args).1 s
  · exact foldl_effect_scalar (fun g => g.settings.maxBuildJobs) atoi KEY_M
      parse_opt_maxBuildJobs (scan none args).1 s
  · intro pre post f hs hpost
    rw [argp_parse_render]
    refine ⟨rfl, ?_⟩
    simp only [List.foldl_append, List.foldl_cons]
    exact Flag.documented_of_preserved f s _ _ (Flag.documented_apply_scalar f hs s _)
      (foldl_apply_preserved f.kind post hpost _)

/-- C4 at a concrete input: `--system` and the core count given twice, in
different spellings. -/
theorem C4_last_occurrence_wins_witness :
    (argp_parse specDefaults
        ["--system", "a", "-C", "2", "--system=b", "--build-cores", "3"]).exit = none
    ∧ (argp_parse specDefaults
        ["--system", "a", "-C", "2", "--system=b", "--build-cores", "3"]
        ).state.settings.thisSystem = "b"
    ∧ (argp_parse specDefaults
        ["--system", "a", "-C", "2", "--system=b", "--build-cores", "3"]
        ).state.settings.buildCores = 3 := by
  have h := C4_last_occurrence_wins specDefaults
    ["--system", "a", "-C", "2", "--system=b", "--build-cores", "3"] (by decide)
  refine ⟨by decide, ?_, ?_⟩
  · rw [h.1]; decide
  · rw [h.2.2.1]; decide

/-! ## C5: malformed numeric arguments -/

/-- C5 as stated fails: `12abc` and `4x` are not well-formed decimal
integers, the options accept them, and the values stored are 12 and 4, not
0. -/
theorem C5_counterexample :
    wellFormedDecimal "12abc" = false
    ∧ (parse_opt KEY_C "12abc" specDefaults).1 = 0
    ∧ (parse_opt KEY_C "12abc" specDefaults).2.settings.buildCores = 12
    ∧ wellFormedDecimal "4x" = false
    ∧ (parse_opt KEY_M "4x" specDefaults).1 = 0
    ∧ (parse_opt KEY_M "4x" specDefaults).2.settings.maxBuildJobs = 4 := by
  decide

/-- C5, amended.  A malformed numeric argument never raises a parse error:
for every argument string, `-C` / `--build-cores` and `-M` / `--max-jobs` are
accepted (the option step returns 0) and store what `atoi` reads from the
string.  `atoi` skips the leading white space, takes an optional sign and then
the longest run of decimal digits, and ignores whatever follows: every string
splits in this way, and for every such split the value read is the signed
decimal value of the run, saturated at the bounds of `long` and then
truncated to the 32-bit `int`.  So the value is 0 when the run is empty (as
for `abc` and the empty string), and the signed value of the run itself when
that is an `int`: 12 for `12abc`, 4 for `4x`, 42 for ` 42`, 7 for `+7` and
`007`; beyond the `int` range `3000000000` gives -1294967296. -/
theorem C5_malformed_numbers_accepted (arg : String) (g : Globals) :
    parse_opt KEY_C arg g
        = (0, { g with settings := { g.settings with buildCores := atoi arg } })
    ∧ parse_opt KEY_M arg g
        = (0, { g with settings := { g.settings with maxBuildJobs := atoi arg } })
    ∧ (∃ ws sg digits junk, arg.toList = ws ++ Sign.chars sg ++ digits ++ junk
        ∧ NumberParts ws sg digits junk)
    ∧ (∀ ws sg digits junk, arg.toList = ws ++ Sign.chars sg ++ digits ++ junk →
        NumberParts ws sg digits junk →
        atoi arg = toInt32 (toLong (Sign.apply sg (decimalValue digits)))
        ∧ (digits = [] → atoi arg = 0)
        ∧ (-2 ^ 31 ≤ Sign.apply sg (decimalValue digits) →
            Sign.apply sg (decimalValue digits) < 2 ^ 31 →
            atoi arg = Sign.apply sg (decimalValue digits)))
    ∧ (startsWithNumber arg = false → atoi arg = 0)
    ∧ (∀ (n : Int) (junk : List Char), -2 ^ 31 ≤ n → n < 2 ^ 31 →
        (∀ c ∈ junk.head?, isdigit c = false) →
        atoi (String.mk ((numeral n).toList ++ junk)) = n)
    ∧ atoi "abc" = 0 ∧ atoi "" = 0 ∧ atoi "12abc" = 12 ∧ atoi "4x" = 4
    ∧ atoi " 42" = 42 ∧ atoi "+7" = 7 ∧ atoi "007" = 7 ∧ atoi "-5x" = -5
    ∧ atoi "3000000000" = -1294967296 := by
  refine ⟨rfl, rfl, numberParts_exist arg.toList, ?_, atoi_no_number arg, ?_,
    by decide, by decide, by decide, by decide, by decide, by decide, by decide, by decide,
    by decide⟩
  · intro ws sg digits junk hsplit hparts
    have hval : atoi arg = toInt32 (toLong (Sign.apply sg (decimalValue digits))) := by
      unfold atoi
      rw [hsplit, strtol_parts ws sg digits junk hparts]
    refine ⟨hval, ?_, ?_⟩
    · intro hnil
      rw [hval, hnil]
      cases sg <;> decide
    · intro hlo hhi
      rw [hval]
      exact toInt32_toLong _ hlo hhi
  · intro n junk hlo hhi hj
    exact atoi_numeral_append n hlo hhi junk hj

/-! ## C6: well-formed numeric arguments -/

/-- C6. Well-formed numeric options are stored exactly: for every integer `n`
of the 32-bit `int` type and every state, `atoi` reads the decimal numeral of
`n` as `n`; given to `-M` / `--max-jobs` it sets `maxBuildJobs` to `n` and
leaves the rest, given to `-C` / `--build-cores` it sets `buildCores` to `n`;
the short and the long spelling yield the same result.  The spec's example:
`--debug -M 4` parses to `verbosity = lvlDebug` and `maxBuildJobs = 4`. -/
theorem C6_numeric_options_stored (n : Int) (hlo : -2 ^ 31 ≤ n) (hhi : n < 2 ^ 31)
    (g : Globals) :
    atoi (numeral n) = n
    ∧ parse_opt KEY_M (numeral n) g
        = (0, { g with settings := { g.settings with maxBuildJobs := n } })
    ∧ parse_opt KEY_C (numeral n) g
        = (0, { g with settings := { g.settings with buildCores := n } })
    ∧ argp_parse g ["-M", numeral n]
        = ⟨{ g with settings := { g.settings with maxBuildJobs := n } }, none⟩
    ∧ argp_parse g ["--max-jobs", numeral n]
        = ⟨{ g with settings := { g.settings with maxBuildJobs := n } }, none⟩
    ∧ argp_parse g ["-C", numeral n]
        = ⟨{ g with settings := { g.settings with buildCores := n } }, none⟩
    ∧ argp_parse g ["--build-cores", numeral n]
        = ⟨{ g with settings := { g.settings with buildCores := n } }, none⟩
    ∧ argp_parse g ["--debug", "-M", "4"]
        = ⟨{ settings := { g.settings with maxBuildJobs := 4 },
             verbosity := Verbosity.lvlDebug }, none⟩ := by
  have ha := atoi_numeral n hlo hhi
  have hM : parse_opt KEY_M (numeral n) g
      = (0, { g with settings := { g.settings with maxBuildJobs := n } }) := by
    have e : parse_opt KEY_M (numeral n) g
        = (0, { g with settings := { g.settings with maxBuildJobs := atoi (numeral n) } }) :=
      rfl
    rw [e, ha]
  have hC : parse_opt KEY_C (numeral n) g
      = (0, { g with settings := { g.settings with buildCores := n } }) := by
    have e : parse_opt KEY_C (numeral n) g
        = (0, { g with settings := { g.settings with buildCores := atoi (numeral n) } }) :=
      rfl
    rw [e, ha]
  have hMs : ∀ sp, argp_parse g (render [Flag.maxJobs sp (numeral n)])
      = ⟨{ g with settings := { g.settings with maxBuildJobs := n } }, none⟩ := by
    intro sp
    rw [argp_parse_render]
    show ParseResult.mk (parse_opt KEY_M (numeral n) g).2 none = _
    rw [hM]
  have hCs : ∀ sp, argp_parse g (render [Flag.buildCores sp (numeral n)])
      = ⟨{ g with settings := { g.settings with buildCores := n } }, none⟩ := by
    intro sp
    rw [argp_parse_render]
    show ParseResult.mk (parse_opt KEY_C (numeral n) g).2 none = _
    rw [hC]
  exact ⟨ha, hM, hC, hMs Spelling.short, hMs Spelling.long, hCs Spelling.short,
    hCs Spelling.long, rfl⟩

/-- C6 at a concrete input: the numeral of 4. -/
theorem C6_numeric_options_stored_witness :
    (-2 ^ 31 ≤ (4 : Int)) ∧ ((4 : Int) < 2 ^ 31) ∧ numeral 4 = "4"
    ∧ atoi (numeral 4) = 4
    ∧ argp_parse specDefaults ["-M", numeral 4]
        = ⟨{ specDefaults with
              settings := { specDefaults.settings with maxBuildJobs := 4 } }, none⟩ := by
  have h := C6_numeric_options_stored 4 (by decide) (by decide) specDefaults
  refine ⟨by decide, by decide, ?_, h.1, h.2.2.2.1⟩
  simp [numeral, natDigits, digitChar]

/-! ## C7: the warning when running as root -/

/-- C7 as stated fails for the empty group: running as root with
`--build-users-group` given an empty `GROUP`, parsing succeeds and the warning
is still written. -/
theorem C7_counterexample :
    rootEnv.geteuid = 0
    ∧ (argp_parse (beforeParsing specDefaults specDefaults.settings)
        ["--build-users-group", ""]).exit = none
    ∧ occurs GUIX_OPT_BUILD_USERS_GROUP ["--build-users-group", ""] = true
    ∧ (main rootEnv specDefaults ["--build-users-group", ""]).stderr = [warningLine] := by
  decide

/-- C7, amended.  After the environment has been applied and the arguments
have been parsed, `main` writes the warning line exactly once when the
effective uid is 0 and `buildUsersGroup` is empty, and not at all otherwise;
`buildUsersGroup` is then the `GROUP` of the last `--build-users-group` of the
vector, or what `processEnvironment` left when the option does not occur.  So
a non-empty `GROUP` suppresses the warning, an unprivileged process never
warns, and root without the option, the group left empty by the environment,
is warned once, as is root with an empty `GROUP`.  The warning is not fatal:
`run` is called once, with no argument. -/
theorem C7_root_warning (env : Env) (init : Globals) (args : List String) (s1 : Settings)
    (henv : env.processEnvironment { init.settings with useChroot := env.HAVE_CHROOT }
      = Except.ok s1)
    (hparse : (argp_parse (beforeParsing init s1) args).exit = none) :
    (main env init args).launches = [([], (argp_parse (beforeParsing init s1) args).state)]
    ∧ (main env init args).stderr.count warningLine
        = (if env.geteuid = 0
              ∧ (argp_parse (beforeParsing init s1) args).state.settings.buildUsersGroup = ""
            then 1 else 0)
    ∧ (argp_parse (beforeParsing init s1) args).state.settings.buildUsersGroup
        = (lastArg GUIX_OPT_BUILD_USERS_GROUP args).getD s1.buildUsersGroup
    ∧ (∀ group, lastArg GUIX_OPT_BUILD_USERS_GROUP args = some group → group ≠ "" →
        (main env init args).stderr.count warningLine = 0)
    ∧ (env.geteuid ≠ 0 → (main env init args).stderr.count warningLine = 0)
    ∧ (env.geteuid = 0 → lastArg GUIX_OPT_BUILD_USERS_GROUP args = none →
        s1.buildUsersGroup = "" → (main env init args).stderr.count warningLine = 1)
    ∧ (env.geteuid = 0 → lastArg GUIX_OPT_BUILD_USERS_GROUP args = some "" →
        (main env init args).stderr.count warningLine = 1) := by
  have hgroup : (argp_parse (beforeParsing init s1) args).state.settings.buildUsersGroup
      = (lastArg GUIX_OPT_BUILD_USERS_GROUP args).getD s1.buildUsersGroup := by
    rw [argp_parse_ok _ args hparse]
    have := foldl_effect_scalar (fun g => g.settings.buildUsersGroup) id
      GUIX_OPT_BUILD_USERS_GROUP parse_opt_buildUsersGroup (scan none args).1
      (beforeParsing init s1)
    simpa [lastArg, argsOf, beforeParsing] using this
  have hcount : (main env init args).stderr.count warningLine
      = (if env.geteuid = 0
            ∧ (argp_parse (beforeParsing init s1) args).state.settings.buildUsersGroup = ""
          then 1 else 0) := by
    rw [main_of_parse_ok env init args s1 henv hparse]
    have hw := fun what => count_warning env (argp_parse (beforeParsing init s1) args).state what
    cases hr : env.run [] (argp_parse (beforeParsing init s1) args).state with
    | returns => exact (hw "").2
    | forever => exact (hw "").2
    | throws what =>
      simp only [List.count_append, (hw what).2]
      have : [errorLine what].count warningLine = 0 :=
        List.count_eq_zero.mpr (by simpa using (errorLine_ne_warningLine what).symm)
      rw [this, Nat.add_zero]
  have hlaunch : (main env init args).launches
      = [([], (argp_parse (beforeParsing init s1) args).state)] := by
    rw [main_of_parse_ok env init args s1 henv hparse]
    cases env.run [] (argp_parse (beforeParsing init s1) args).state <;> rfl
  refine ⟨hlaunch, hcount, hgroup, ?_, ?_, ?_, ?_⟩
  · intro group hlast hne
    rw [hcount, hgroup, hlast]
    simp [hne]
  · intro hne
    rw [hcount]
    simp [hne]
  · intro h0 hlast hempty
    rw [hcount, hgroup, hlast]
    simp [h0, hempty]
  · intro h0 hlast
    rw [hcount, hgroup, hlast]
    simp [h0]

/-- C7 amended, at a concrete input: root, a non-empty group, no warning. -/
theorem C7_root_warning_witness :
    rootEnv.processEnvironment { specDefaults.settings with useChroot := rootEnv.HAVE_CHROOT }
      = Except.ok specDefaults.settings
    ∧ (argp_parse (beforeParsing specDefaults specDefaults.settings)
        ["--build-users-group", "guixbuild"]).exit = none
    ∧ (main rootEnv specDefaults ["--build-users-group", "guixbuild"]).stderr.count warningLine
        = 0
    ∧ (main rootEnv specDefaults ["--build-users-group", "guixbuild"]).launches.length = 1 := by
  have h := C7_root_warning rootEnv specDefaults ["--build-users-group", "guixbuild"]
    specDefaults.settings rfl (by decide)
  refine ⟨rfl, by decide, ?_, ?_⟩
  · exact h.2.2.2.1 "guixbuild" (by decide) (by decide)
  · rw [h.1]
    rfl

/-! ## C8: failures at the top level -/

/-- C8. For every exception with message `m`: raised by `processEnvironment`,
`main` writes the one line `error: m` and nothing else, does not start the
service and returns `EXIT_FAILURE`; raised by `run`, `main` appends the one
line `error: m` to what it had written before the call, which is nothing, or
the warning when the process runs as root with no build users group; in both
cases exactly one line of the output is an error line, namely `error: m`, and
the status `EXIT_FAILURE` is not 0.  No execution writes more than one error
line.  `main` returns `EXIT_SUCCESS`, which is 0, exactly when `run` has been
called and has returned; whenever `main` returns, the status is one of the
two. -/
theorem C8_top_level_failure (env : Env) (init : Globals) (args : List String) :
    (∀ m, env.processEnvironment { init.settings with useChroot := env.HAVE_CHROOT }
          = Except.error m →
        main env init args = ⟨["error: " ++ m], [], Outcome.returned EXIT_FAILURE⟩
        ∧ (main env init args).stderr.filter isErrorLine = ["error: " ++ m])
    ∧ (∀ s1 m,
        env.processEnvironment { init.settings with useChroot := env.HAVE_CHROOT }
          = Except.ok s1 →
        (argp_parse (beforeParsing init s1) args).exit = none →
        env.run [] (argp_parse (beforeParsing init s1) args).state = RunResult.throws m →
        (main env init args).outcome = Outcome.returned EXIT_FAILURE
        ∧ (main env init args).stderr
            = warning env (argp_parse (beforeParsing init s1) args).state ++ ["error: " ++ m]
        ∧ (main env init args).stderr.count ("error: " ++ m) = 1
        ∧ (main env init args).stderr.filter isErrorLine = ["error: " ++ m]
        ∧ (¬(env.geteuid = 0
              ∧ (argp_parse (beforeParsing init s1) args).state.settings.buildUsersGroup = "") →
            (main env init args).stderr = ["error: " ++ m])
        ∧ (env.geteuid = 0
              ∧ (argp_parse (beforeParsing init s1) args).state.settings.buildUsersGroup = "" →
            (main env init args).stderr = [warningLine, "error: " ++ m]))
    ∧ ((main env init args).stderr.filter isErrorLine).length ≤ 1
    ∧ EXIT_FAILURE ≠ 0
    ∧ EXIT_SUCCESS = 0
    ∧ ((main env init args).outcome = Outcome.returned EXIT_SUCCESS
        ↔ ∃ s1,
          env.processEnvironment { init.settings with useChroot := env.HAVE_CHROOT }
            = Except.ok s1
          ∧ (argp_parse (beforeParsing init s1) args).exit = none
          ∧ env.run [] (argp_parse (beforeParsing init s1) args).state = RunResult.returns)
    ∧ (∀ status, (main env init args).outcome = Outcome.returned status →
        status = EXIT_SUCCESS ∨ status = EXIT_FAILURE) := by
  have herr : ∀ m, env.processEnvironment { init.settings with useChroot := env.HAVE_CHROOT }
        = Except.error m →
      main env init args = ⟨["error: " ++ m], [], Outcome.returned EXIT_FAILURE⟩ :=
    fun m henv => main_of_env_error env init args m henv
  have hthrow : ∀ s1 m,
      env.processEnvironment { init.settings with useChroot := env.HAVE_CHROOT }
        = Except.ok s1 →
      (argp_parse (beforeParsing init s1) args).exit = none →
      env.run [] (argp_parse (beforeParsing init s1) args).state = RunResult.throws m →
      main env init args
        = ⟨warning env (argp_parse (beforeParsing init s1) args).state ++ ["error: " ++ m],
            [([], (argp_parse (beforeParsing init s1) args).state)],
            Outcome.returned EXIT_FAILURE⟩ := by
    intro s1 m henv hparse hrun
    rw [main_of_parse_ok env init args s1 henv hparse, hrun]
    rfl
  have hfilter : ∀ (w : List String) (m : String), w.filter isErrorLine = [] →
      (w ++ ["error: " ++ m]).filter isErrorLine = ["error: " ++ m] := by
    intro w m hw
    rw [List.filter_append, hw, List.nil_append]
    simp [List.filter_cons, isErrorLine_error m]
  refine ⟨?_, ?_, ?_, by decide, rfl, ?_, ?_⟩
  · intro m henv
    refine ⟨herr m henv, ?_⟩
    rw [herr m henv]
    exact hfilter [] m rfl
  · intro s1 m henv hparse hrun
    rw [hthrow s1 m henv hparse hrun]
    refine ⟨rfl, rfl, ?_, hfilter _ m (filter_warning env _), ?_, ?_⟩
    · have hc := (count_warning env (argp_parse (beforeParsing init s1) args).state m).1
      unfold errorLine at hc
      simp only [List.count_append, hc]
      simp
    · intro hno
      simp only [warning, if_neg hno, List.nil_append]
    · intro hyes
      simp only [warning, if_pos hyes]
      rfl
  · cases henv : env.processEnvironment { init.settings with useChroot := env.HAVE_CHROOT } with
    | error what =>
      rw [herr what henv]
      show ((([] : List String) ++ ["error: " ++ what]).filter isErrorLine).length ≤ 1
      rw [hfilter [] what rfl]
      exact Nat.le_refl 1
    | ok s1 =>
      cases hparse : (argp_parse (beforeParsing init s1) args).exit with
      | some status =>
        rw [main_of_parse_exit env init args s1 status henv hparse]
        exact Nat.zero_le 1
      | none =>
        cases hrun : env.run [] (argp_parse (beforeParsing init s1) args).state with
        | returns =>
          rw [main_of_parse_ok env init args s1 henv hparse, hrun]
          show ((warning env _).filter isErrorLine).length ≤ 1
          rw [filter_warning]
          exact Nat.zero_le 1
        | forever =>
          rw [main_of_parse_ok env init args s1 henv hparse, hrun]
          show ((warning env _).filter isErrorLine).length ≤ 1
          rw [filter_warning]
          exact Nat.zero_le 1
        | throws what =>
          rw [hthrow s1 what henv hparse hrun]
          show ((warning env _ ++ ["error: " ++ what]).filter isErrorLine).length ≤ 1
          rw [hfilter _ what (filter_warning env _)]
          exact Nat.le_refl 1
  · constructor
    · intro hout
      cases henv : env.processEnvironment { init.settings with useChroot := env.HAVE_CHROOT } with
      | error what =>
        rw [main_of_env_error env init args what henv] at hout
        simp [EXIT_SUCCESS, EXIT_FAILURE] at hout
      | ok s1 =>
        cases hparse : (argp_parse (beforeParsing init s1) args).exit with
        | some status =>
          rw [main_of_parse_exit env init args s1 status henv hparse] at hout
          exact absurd hout (by simp)
        | none =>
          refine ⟨s1, rfl, hparse, ?_⟩
          rw [main_of_parse_ok env init args s1 henv hparse] at hout
          cases hrun : env.run [] (argp_parse (beforeParsing init s1) args).state with
          | returns => rfl
          | throws what => rw [hrun] at hout; simp [EXIT_SUCCESS, EXIT_FAILURE] at hout
          | forever => rw [hrun] at hout; exact absurd hout (by simp)
    · rintro ⟨s1, henv, hparse, hrun⟩
      rw [main_of_parse_ok env init args s1 henv hparse, hrun]
  · intro status hout
    cases henv : env.processEnvironment { init.settings with useChroot := env.HAVE_CHROOT } with
    | error what =>
      rw [main_of_env_error env init args what henv] at hout
      exact Or.inr (Outcome.returned.inj hout).symm
    | ok s1 =>
      cases hparse : (argp_parse (beforeParsing init s1) args).exit with
      | some st =>
        rw [main_of_parse_exit env init args s1 st henv hparse] at hout
        exact absurd hout (by simp)
      | none =>
        rw [main_of_parse_ok env init args s1 henv hparse] at hout
        cases hrun : env.run [] (argp_parse (beforeParsing init s1) args).state with
        | returns => rw [hrun] at hout; exact Or.inl (Outcome.returned.inj hout).symm
        | throws what => rw [hrun] at hout; exact Or.inr (Outcome.returned.inj hout).symm
        | forever => rw [hrun] at hout; exact absurd hout (by simp)

/-! ## C9: substitution is off -/

/-- C9. Substitution is forced off: for every environment (whatever
`processEnvironment` returns), every initial state and every argument
vector, the globals `run` is called under have `useSubstitutes = false` and
no substituter; and no call of `parse_opt`, whatever the key and the argument,
changes `useSubstitutes` or `substituters`, so no option turns substitution
back on. -/
theorem C9_substitution_forced_off (env : Env) (init : Globals) (args : List String) :
    (∀ call ∈ (main env init args).launches,
        call.2.settings.useSubstitutes = false ∧ call.2.settings.substituters = [])
    ∧ (∀ (key : Int) (arg : String) (g : Globals),
        (parse_opt key arg g).2.settings.useSubstitutes = g.settings.useSubstitutes
        ∧ (parse_opt key arg g).2.settings.substituters = g.settings.substituters) := by
  refine ⟨?_, parse_opt_substitution⟩
  intro call hcall
  cases henv : env.processEnvironment { init.settings with useChroot := env.HAVE_CHROOT } with
  | error what =>
    rw [main_of_env_error env init args what henv] at hcall
    simp at hcall
  | ok s1 =>
    cases hparse : (argp_parse (beforeParsing init s1) args).exit with
    | some status =>
      rw [main_of_parse_exit env init args s1 status henv hparse] at hcall
      simp at hcall
    | none =>
      have hinv := argp_parse_invariant
        (fun g => g.settings.useSubstitutes = false ∧ g.settings.substituters = [])
        (fun key arg g hg => by
          have h := parse_opt_substitution key arg g
          exact ⟨h.1.trans hg.1, h.2.trans hg.2⟩)
        (beforeParsing init s1) args ⟨rfl, rfl⟩
      have hl : (main env init args).launches
          = [([], (argp_parse (beforeParsing init s1) args).state)] := by
        rw [main_of_parse_ok env init args s1 henv hparse]
        cases env.run [] (argp_parse (beforeParsing init s1) args).state <;> rfl
      rw [hl, List.mem_singleton] at hcall
      subst hcall
      exact hinv

/-! ## C10: resolution of `useChroot` -/

/-- C10. Resolution of `useChroot`.  `main` sets `useChroot` to the platform's
capability before the environment is applied and before any argument is
read.  For every argument vector that parses, `run` is called once, under
globals whose `useChroot` is the value `processEnvironment` left, cleared when
`--disable-chroot` occurs in the vector.  When `processEnvironment` leaves
`useChroot` as `main` set it, that value is true exactly when `HAVE_CHROOT`
is defined and `--disable-chroot` does not occur, and on a platform without
`HAVE_CHROOT` it is false for every vector.  On a vector spelled from flags,
`--disable-chroot` occurs exactly when it is one of the flags. -/
theorem C10_useChroot_resolution (env : Env) (init : Globals) (args : List String)
    (s1 : Settings)
    (henv : env.processEnvironment { init.settings with useChroot := env.HAVE_CHROOT }
      = Except.ok s1)
    (hparse : (argp_parse (beforeParsing init s1) args).exit = none) :
    (main env init args).launches = [([], (argp_parse (beforeParsing init s1) args).state)]
    ∧ (argp_parse (beforeParsing init s1) args).state.settings.useChroot
        = (s1.useChroot && !occurs GUIX_OPT_DISABLE_CHROOT args)
    ∧ (s1.useChroot = env.HAVE_CHROOT →
        ((argp_parse (beforeParsing init s1) args).state.settings.useChroot = true
          ↔ env.HAVE_CHROOT = true ∧ occurs GUIX_OPT_DISABLE_CHROOT args = false))
    ∧ (s1.useChroot = env.HAVE_CHROOT → env.HAVE_CHROOT = false →
        (argp_parse (beforeParsing init s1) args).state.settings.useChroot = false)
    ∧ (∀ fs : List Flag,
        occurs GUIX_OPT_DISABLE_CHROOT (render fs) = decide (Flag.disableChroot ∈ fs)) := by
  have hl : (main env init args).launches
      = [([], (argp_parse (beforeParsing init s1) args).state)] := by
    rw [main_of_parse_ok env init args s1 henv hparse]
    cases env.run [] (argp_parse (beforeParsing init s1) args).state <;> rfl
  have hu : (argp_parse (beforeParsing init s1) args).state.settings.useChroot
      = (s1.useChroot && !occurs GUIX_OPT_DISABLE_CHROOT args) :=
    argp_parse_useChroot (beforeParsing init s1) args hparse
  refine ⟨hl, hu, ?_, ?_, occurs_render_disableChroot⟩
  · intro hframe
    rw [hu, hframe]
    cases env.HAVE_CHROOT <;> cases occurs GUIX_OPT_DISABLE_CHROOT args <;> simp
  · intro hframe hno
    rw [hu, hframe, hno]
    rfl

/-- C10 at a concrete input: isolation supported, `--disable-chroot` given
in abbreviated form. -/
theorem C10_useChroot_resolution_witness :
    rootEnv.processEnvironment { specDefaults.settings with useChroot := rootEnv.HAVE_CHROOT }
      = Except.ok specDefaults.settings
    ∧ (argp_parse (beforeParsing specDefaults specDefaults.settings)
        ["--debug", "--disable-c"]).exit = none
    ∧ occurs GUIX_OPT_DISABLE_CHROOT ["--debug", "--disable-c"] = true
    ∧ (argp_parse (beforeParsing specDefaults specDefaults.settings)
        ["--debug", "--disable-c"]).state.settings.useChroot = false
    ∧ (main rootEnv specDefaults ["--debug", "--disable-c"]).launches.length = 1 := by
  have h := C10_useChroot_resolution rootEnv specDefaults ["--debug", "--disable-c"]
    specDefaults.settings rfl (by decide)
  refine ⟨rfl, by decide, by decide, ?_, ?_⟩
  · rw [h.2.1]
    decide
  · rw [h.1]
    rfl

/-! ## C11: the service starts only after the bootstrap -/

/-- C11. The build service is never started after a failed bootstrap: in
every execution `run` is called at most once and only with the empty argument
list; when it is called, `processEnvironment` has returned, `argp_parse` has
returned, and the globals at the call are the ones before parsing with every
decoded option of the vector applied in order; when `processEnvironment`
throws or the process ends inside `argp_parse`, `run` is never called; when
both succeed it is called. -/
theorem C11_service_started_after_bootstrap (env : Env) (init : Globals)
    (args : List String) :
    (main env init args).launches.length ≤ 1
    ∧ (∀ call ∈ (main env init args).launches, call.1 = [])
    ∧ (∀ call ∈ (main env init args).launches, ∃ s1,
        env.processEnvironment { init.settings with useChroot := env.HAVE_CHROOT }
          = Except.ok s1
        ∧ (argp_parse (beforeParsing init s1) args).exit = none
        ∧ call.2 = (argp_parse (beforeParsing init s1) args).state
        ∧ call.2 = (scan none args).1.foldl (fun g i => i.effect g) (beforeParsing init s1))
    ∧ (∀ what,
        env.processEnvironment { init.settings with useChroot := env.HAVE_CHROOT }
          = Except.error what →
        (main env init args).launches = [])
    ∧ (∀ s1 status,
        env.processEnvironment { init.settings with useChroot := env.HAVE_CHROOT }
          = Except.ok s1 →
        (argp_parse (beforeParsing init s1) args).exit = some status →
        (main env init args).launches = [])
    ∧ (∀ s1,
        env.processEnvironment { init.settings with useChroot := env.HAVE_CHROOT }
          = Except.ok s1 →
        (argp_parse (beforeParsing init s1) args).exit = none →
        (main env init args).launches
          = [([], (argp_parse (beforeParsing init s1) args).state)]) := by
  have hok : ∀ s1,
      env.processEnvironment { init.settings with useChroot := env.HAVE_CHROOT }
        = Except.ok s1 →
      (argp_parse (beforeParsing init s1) args).exit = none →
      (main env init args).launches
        = [([], (argp_parse (beforeParsing init s1) args).state)] := by
    intro s1 henv hparse
    rw [main_of_parse_ok env init args s1 henv hparse]
    cases env.run [] (argp_parse (beforeParsing init s1) args).state <;> rfl
  have herr : ∀ what,
      env.processEnvironment { init.settings with useChroot := env.HAVE_CHROOT }
        = Except.error what →
      (main env init args).launches = [] := by
    intro what henv
    rw [main_of_env_error env init args what henv]
  have hexit : ∀ s1 status,
      env.processEnvironment { init.settings with useChroot := env.HAVE_CHROOT }
        = Except.ok s1 →
      (argp_parse (beforeParsing init s1) args).exit = some status →
      (main env init args).launches = [] := by
    intro s1 status henv hparse
    rw [main_of_parse_exit env init args s1 status henv hparse]
  refine ⟨?_, ?_, ?_, herr, hexit, hok⟩
  · cases henv : env.processEnvironment { init.settings with useChroot := env.HAVE_CHROOT } with
    | error what => simp [herr what henv]
    | ok s1 =>
      cases hparse : (argp_parse (beforeParsing init s1) args).exit with
      | some status => simp [hexit s1 status henv hparse]
      | none => simp [hok s1 henv hparse]
  · intro call hcall
    cases henv : env.processEnvironment { init.settings with useChroot := env.HAVE_CHROOT } with
    | error what => rw [herr what henv] at hcall; simp at hcall
    | ok s1 =>
      cases hparse : (argp_parse (beforeParsing init s1) args).exit with
      | some status => rw [hexit s1 status henv hparse] at hcall; simp at hcall
      | none =>
        rw [hok s1 henv hparse, List.mem_singleton] at hcall
        rw [hcall]
  · intro call hcall
    cases henv : env.processEnvironment { init.settings with useChroot := env.HAVE_CHROOT } with
    | error what => rw [herr what henv] at hcall; simp at hcall
    | ok s1 =>
      cases hparse : (argp_parse (beforeParsing init s1) args).exit with
      | some status => rw [hexit s1 status henv hparse] at hcall; simp at hcall
      | none =>
        rw [hok s1 henv hparse, List.mem_singleton] at hcall
        refine ⟨s1, rfl, hparse, ?_, ?_⟩
        · rw [hcall]
        · rw [hcall]
          exact argp_parse_ok _ args hparse

/-! ## C12: order independence -/

/-- C12. Order independence: for every state, two calls of `parse_opt` whose
keys differ, or which are both `--chroot-directory`, yield the same globals in
either order; hence for two vectors spelled from the same flags in different
orders, no scalar option occurring twice, `argp_parse` yields the same
result.  An example: `--debug -M 4` and `-M 4 --debug`. -/
theorem C12_order_independence (g : Globals) :
    (∀ (k1 k2 : Int) (a1 a2 : String),
        (k1 ≠ k2 ∨ (k1 = GUIX_OPT_CHROOT_DIR ∧ k2 = GUIX_OPT_CHROOT_DIR)) →
        (parse_opt k2 a2 (parse_opt k1 a1 g).2).2 = (parse_opt k1 a1 (parse_opt k2 a2 g).2).2)
    ∧ (∀ fs1 fs2 : List Flag, fs1.Perm fs2 →
        ((fs1.filter (fun f => f.kind.scalar)).map Flag.kind).Nodup →
        argp_parse g (render fs1) = argp_parse g (render fs2))
    ∧ argp_parse g ["--debug", "-M", "4"] = argp_parse g ["-M", "4", "--debug"] := by
  refine ⟨?_, ?_, rfl⟩
  · intro k1 k2 a1 a2 h
    rcases h with h | ⟨h1, h2⟩
    · exact parse_opt_comm_of_ne k1 k2 a1 a2 g h
    · subst h1 h2
      exact parse_opt_comm_kind Kind.chrootDirectory Kind.chrootDirectory a1 a2 g
        (Or.inr (Or.inl rfl))
  · intro fs1 fs2 hperm hnodup
    rw [argp_parse_render, argp_parse_render]
    congr 1
    refine List.Perm.foldl_eq' hperm ?_ g
    intro x hx y hy z
    refine Flag.apply_comm x y z ?_
    by_cases hk : x.kind = y.kind
    · cases hs : x.kind.scalar with
      | false => exact Or.inr (Or.inl rfl)
      | true =>
        have hx' : x ∈ fs1.filter (fun f => f.kind.scalar) := by
          simp [List.mem_filter, hx, hs]
        have hy' : y ∈ fs1.filter (fun f => f.kind.scalar) := by
          simp [List.mem_filter, hy, ← hk, hs]
        exact Or.inr (Or.inr (List.inj_on_of_nodup_map hnodup hx' hy' hk))
    · exact Or.inl hk

/-! ## C13: idempotence and one-directional switches -/

/-- C13. Idempotence and one-directional switches: for every state, every key
and every argument, calling `parse_opt` twice is calling it once; and a
switch that has been thrown stays thrown: once `useChroot`, `keepLog`,
`compressLog` or `autoOptimiseStore` is false, or `cacheFailure` or
`impersonateLinux26` is true, it is so after every sequence of calls of
`parse_opt` and when `argp_parse` stops on any argument vector. -/
theorem C13_idempotent_one_directional (g : Globals) (key : Int) (arg : String) :
    parse_opt key arg (parse_opt key arg g).2 = parse_opt key arg g
    ∧ (∀ os : List (Int × String), switchesKept g (applyOptions g os))
    ∧ (∀ args : List String, switchesKept g (argp_parse g args).state) := by
  refine ⟨parse_opt_idem key arg g, fun os => applyOptions_switchesKept os g, ?_⟩
  intro args
  exact argp_parse_invariant (fun r => switchesKept g r)
    (fun k a r hr => switchesKept_trans g r _ hr (parse_opt_switchesKept k a r))
    g args (switchesKept_refl g)

/-! ## C14: the keys `parse_opt` accepts -/

/-- C14. The option step accepts exactly the twelve keys of the option table:
for every key, argument and state, `parse_opt` returns 0 if and only if the
key is one of the codes 1 to 10, `'C'` or `'M'`, which are the keys of the
table `options` (only `'C'` and `'M'` are also short options); for every
other key, the key argp uses for a non-option argument included, it returns
`ARGP_ERR_UNKNOWN`, which is not 0, and leaves the globals (every settings
field and the verbosity) as they are. -/
theorem C14_accepted_keys (key : Int) (arg : String) (g : Globals) :
    ((parse_opt key arg g).1 = 0 ↔ (1 ≤ key ∧ key ≤ 10) ∨ key = 67 ∨ key = 77)
    ∧ (key ∈ options.map (fun o => o.key) ↔ (1 ≤ key ∧ key ≤ 10) ∨ key = 67 ∨ key = 77)
    ∧ (¬((1 ≤ key ∧ key ≤ 10) ∨ key = 67 ∨ key = 77) →
        parse_opt key arg g = (ARGP_ERR_UNKNOWN, g))
    ∧ parse_opt ARGP_KEY_ARG arg g = (ARGP_ERR_UNKNOWN, g)
    ∧ ARGP_ERR_UNKNOWN ≠ 0
    ∧ (options.map (fun o => o.key)).length = 12
    ∧ (options.map (fun o => o.key)).Nodup
    ∧ (options.filter (fun o => isShortKey o.key)).map (fun o => o.key) = [KEY_C, KEY_M] := by
  have hmem : key ∈ options.map (fun o => o.key)
      ↔ (1 ≤ key ∧ key ≤ 10) ∨ key = 67 ∨ key = 77 := by
    simp only [options, List.map_cons, List.map_nil, List.mem_cons, List.mem_singleton,
      List.not_mem_nil, or_false, GUIX_OPT_SYSTEM, KEY_C, KEY_M, GUIX_OPT_DISABLE_CHROOT,
      GUIX_OPT_CHROOT_DIR, GUIX_OPT_BUILD_USERS_GROUP, GUIX_OPT_CACHE_FAILURES,
      GUIX_OPT_LOSE_LOGS, GUIX_OPT_DISABLE_LOG_COMPRESSION,
      GUIX_OPT_DISABLE_STORE_OPTIMIZATION, GUIX_OPT_IMPERSONATE_LINUX_26, GUIX_OPT_DEBUG]
    omega
  refine ⟨?_, hmem, ?_, rfl, by decide, by decide, by decide, by decide⟩
  · rcases parse_opt_key_cases key with ⟨k, rfl⟩ | ⟨hne, hun⟩
    · cases k <;> exact ⟨fun _ => by decide, fun _ => rfl⟩
    · rw [hun]
      have h1 := hne Kind.system
      have h2 := hne Kind.buildCores
      have h3 := hne Kind.maxJobs
      have h4 := hne Kind.disableChroot
      have h5 := hne Kind.chrootDirectory
      have h6 := hne Kind.buildUsersGroup
      have h7 := hne Kind.cacheFailures
      have h8 := hne Kind.loseLogs
      have h9 := hne Kind.disableLogCompression
      have h10 := hne Kind.disableStoreOptimization
      have h11 := hne Kind.impersonateLinux26
      have h12 := hne Kind.debug
      simp only [Kind.key, GUIX_OPT_SYSTEM, KEY_C, KEY_M, GUIX_OPT_DISABLE_CHROOT,
        GUIX_OPT_CHROOT_DIR, GUIX_OPT_BUILD_USERS_GROUP, GUIX_OPT_CACHE_FAILURES,
        GUIX_OPT_LOSE_LOGS, GUIX_OPT_DISABLE_LOG_COMPRESSION,
        GUIX_OPT_DISABLE_STORE_OPTIMIZATION, GUIX_OPT_IMPERSONATE_LINUX_26, GUIX_OPT_DEBUG]
        at h1 h2 h3 h4 h5 h6 h7 h8 h9 h10 h11 h12
      constructor
      · intro h
        have h0 : ARGP_ERR_UNKNOWN = 0 := h
        exact absurd h0 (by decide)
      · intro h
        omega
  · intro hnot
    rcases parse_opt_key_cases key with ⟨k, rfl⟩ | ⟨_, hun⟩
    · exact absurd (by cases k <;> decide) hnot
    · exact hun arg g

end GuixDaemon
